import Mathlib

/-!
Verification of the fpack binary serialization library.

The Go source is shallowly embedded: byte slices become `List Nat` (each
element < 256 where produced by the code), machine integers become `Nat`/`Int`
with explicit `% 2^w` where overflow matters, and the stateful
`Encoder`/`Decoder` values become explicit state records threaded through the
operations.  The encoder's in-place destination slice is represented as a
zipper `(written, remaining)`: Go keeps a cursor into one allocation, the
zipper keeps the bytes before and after that cursor.  Slice writes that would
panic in Go (destination shorter than the write) are modelled totally via
`take`/`drop`; every theorem below only runs the writer on destinations of
exactly the measured size, where Go cannot panic.
-/

set_option maxRecDepth 4000
set_option linter.unusedVariables false

namespace Fpack

/-- The error values of the package (fpack.go plus the two values referenced
by encode.go/decode.go whose defining file is outside this snapshot), plus a
`callback` marker standing for an arbitrary caller-supplied error returned by
an encode/decode callback. -/
inductive Err where
  | bufferTooShort
  | remainingBytes
  | invalidSize
  | numberOverflow
  | emptyDelimiter
  | invalidOffset
  | eof
  | callback
deriving DecidableEq, Repr

/-! ## encoding/binary: big-endian fixed-width integers

`binary.BigEndian.PutUintN` writes the low N bytes of the value most
significant first; `binary.BigEndian.UintN` reads them back. -/

/-- Bytes written by `PutUint16/32/64` (and the single-byte case) for the
sizes the Go switch handles; other sizes write nothing. -/
def beBytes (size num : Nat) : List Nat :=
  match size with
  | 1 => [num % 2 ^ 8]
  | 2 => [num % 2 ^ 16 / 2 ^ 8, num % 2 ^ 8]
  | 4 => [num % 2 ^ 32 / 2 ^ 24, num % 2 ^ 24 / 2 ^ 16,
          num % 2 ^ 16 / 2 ^ 8, num % 2 ^ 8]
  | 8 => [num % 2 ^ 64 / 2 ^ 56, num % 2 ^ 56 / 2 ^ 48,
          num % 2 ^ 48 / 2 ^ 40, num % 2 ^ 40 / 2 ^ 32,
          num % 2 ^ 32 / 2 ^ 24, num % 2 ^ 24 / 2 ^ 16,
          num % 2 ^ 16 / 2 ^ 8, num % 2 ^ 8]
  | _ => []

/-- Value read by `binary.BigEndian.UintN` from the first `size` bytes. -/
def beUint (size : Nat) (bs : List Nat) : Nat :=
  (bs.take size).foldl (fun a b => a * 2 ^ 8 + b) 0

/-- Two's-complement reinterpretation, as in `int64(int8(b))` etc.: the low
`8*size` bits are sign extended. -/
def sext (size u : Nat) : Int :=
  if u % 2 ^ (8 * size) < 2 ^ (8 * size - 1)
  then ((u % 2 ^ (8 * size) : Nat) : Int)
  else ((u % 2 ^ (8 * size) : Nat) : Int) - 2 ^ (8 * size)

/-- Go's `uint64(n)` for an `int64` value: two's complement, i.e. `n mod 2^64`
as an unsigned value. -/
def toU64 (n : Int) : Nat := (n % 2 ^ 64).toNat

/-! ## encoding/binary: varints -/

/-- Byte list produced by `binary.PutUvarint`: 7-bit groups low to high, the
continuation bit set on all but the final byte. -/
def putUvarint (x : Nat) : List Nat :=
  if h : x ≥ 2 ^ 7 then (x % 2 ^ 7 + 2 ^ 7) :: putUvarint (x / 2 ^ 7)
  else [x]
decreasing_by exact Nat.div_lt_self (by omega) (by omega)

/-- The zigzag transform of `binary.PutVarint`:
`ux := uint64(x) << 1; if x < 0 { ux = ^ux }`. -/
def zigzag (x : Int) : Nat :=
  if x < 0 then 2 ^ 64 - 1 - toU64 x * 2 % 2 ^ 64 else toU64 x * 2 % 2 ^ 64

/-- Byte list produced by `binary.PutVarint`: zigzag followed by `PutUvarint`. -/
def putVarint (x : Int) : List Nat := putUvarint (zigzag x)

/-- The loop of `binary.Uvarint` (encoding/binary/varint.go), with the running
index `i`, shift `s` and accumulator `x`.  Returns `(value, bytesRead)`;
`bytesRead` is `0` on truncation and negative on 64-bit overflow
(`MaxVarintLen64 = 10`). -/
def uvarintGo (buf : List Nat) (i s x : Nat) : Nat × Int :=
  match buf with
  | [] => (0, 0)
  | b :: rest =>
    if i = 10 then (0, -((i : Int) + 1))
    else if b < 2 ^ 7 then
      if i = 9 ∧ b > 1 then (0, -((i : Int) + 1))
      else (x ||| (b <<< s % 2 ^ 64), (i : Int) + 1)
    else uvarintGo rest (i + 1) (s + 7) ((x ||| ((b % 2 ^ 7) <<< s % 2 ^ 64)) % 2 ^ 64)

/-- `binary.Uvarint`. -/
def uvarint (buf : List Nat) : Nat × Int := uvarintGo buf 0 0 0

/-- The inverse zigzag transform of `binary.Varint`:
`x := int64(ux >> 1); if ux & 1 != 0 { x = ^x }` (`^x = -x-1`). -/
def unzig (ux : Nat) : Int :=
  if ux % 2 = 1 then -((ux / 2 : Nat) : Int) - 1 else ((ux / 2 : Nat) : Int)

/-- `binary.Varint`: `Uvarint` followed by the inverse zigzag transform. -/
def varint (buf : List Nat) : Int × Int :=
  (unzig (uvarint buf).1, (uvarint buf).2)

/-! ## Encoder (encode.go)

`Encoder` carries the length accumulator `len`, the destination `buf`
(`none` is counting mode, Go's nil buffer; in writing mode Go's slice cursor
into the destination allocation is the zipper `(written, remaining)`) and the
sticky error `err`.  The byte order field `bo` is specialized to its default
big-endian: `Reset` restores that default and no verified claim switches to
little endian. -/

structure Encoder where
  len : Nat
  buf : Option (List Nat × List Nat)
  err : Option Err
deriving DecidableEq, Repr

/-- Fresh counting-mode encoder, as produced by `NewEncoder`/`Reset(nil)`. -/
def countInit : Encoder := ⟨0, none, none⟩

/-- Encoder reset into writing mode over destination `buf` (`Reset(buf)`). -/
def writeInit (buf : List Nat) : Encoder := ⟨0, some ([], buf), none⟩

/-- The write-then-advance step shared by all writing branches: store `bs`
over the start of the remaining destination, then advance the cursor by
`adv` bytes (`e.buf = e.buf[adv:]`). -/
def writeAdv (bs : List Nat) (adv : Nat) (w r : List Nat) : List Nat × List Nat :=
  let r1 := bs ++ r.drop bs.length
  (w ++ r1.take adv, r1.drop adv)

/-- The overflow test of `Encoder.Int` for sizes 1/2/4 (8 is never checked). -/
def intOverflow (n : Int) (size : Nat) : Bool :=
  match size with
  | 1 => decide (n < -(2 ^ 7)) || decide (2 ^ 7 - 1 < n)
  | 2 => decide (n < -(2 ^ 15)) || decide (2 ^ 15 - 1 < n)
  | 4 => decide (n < -(2 ^ 31)) || decide (2 ^ 31 - 1 < n)
  | _ => false

/-- The overflow test of `Encoder.Uint` for sizes 1/2/4 (8 is never checked). -/
def uintOverflow (num : Nat) (size : Nat) : Bool :=
  match size with
  | 1 => decide (2 ^ 8 - 1 < num)
  | 2 => decide (2 ^ 16 - 1 < num)
  | 4 => decide (2 ^ 32 - 1 < num)
  | _ => false

/-- `Encoder.Skip`: count `num`, or write `num` zero bytes and advance. -/
def Encoder.skip (num : Nat) (e : Encoder) : Encoder :=
  if e.err.isSome then e
  else match e.buf with
    | none => { e with len := e.len + num }
    | some (w, r) => { e with buf := some (writeAdv (List.replicate num 0) num w r) }

/-- `Encoder.Uint`: overflow check (which sets the sticky error but still
falls through to count/write, as in the source), then count `size` or write
the big-endian bytes the Go switch produces and advance by `size`. -/
def Encoder.uint (num size : Nat) (e : Encoder) : Encoder :=
  if e.err.isSome then e
  else
    let e1 := if uintOverflow num size then { e with err := some .numberOverflow } else e
    match e1.buf with
    | none => { e1 with len := e1.len + size }
    | some (w, r) => { e1 with buf := some (writeAdv (beBytes size num) size w r) }

/-- `Encoder.Int`: overflow check, convert via `un := uint64(n)`, then count
or write exactly like `Uint`. -/
def Encoder.int (n : Int) (size : Nat) (e : Encoder) : Encoder :=
  if e.err.isSome then e
  else
    let e1 := if intOverflow n size then { e with err := some .numberOverflow } else e
    match e1.buf with
    | none => { e1 with len := e1.len + size }
    | some (w, r) => { e1 with buf := some (writeAdv (beBytes size (toU64 n)) size w r) }

/-- `Encoder.Int8` (an `int8` argument always lies in `[-2^7, 2^7)`). -/
def Encoder.int8 (num : Int) (e : Encoder) : Encoder := e.int num 1

/-- `Encoder.Int16`. -/
def Encoder.int16 (num : Int) (e : Encoder) : Encoder := e.int num 2

/-- `Encoder.Int32`. -/
def Encoder.int32 (num : Int) (e : Encoder) : Encoder := e.int num 4

/-- `Encoder.Int64`. -/
def Encoder.int64 (num : Int) (e : Encoder) : Encoder := e.int num 8

/-- `Encoder.Uint8`. -/
def Encoder.uint8 (num : Nat) (e : Encoder) : Encoder := e.uint num 1

/-- `Encoder.Uint16`. -/
def Encoder.uint16 (num : Nat) (e : Encoder) : Encoder := e.uint num 2

/-- `Encoder.Uint32`. -/
def Encoder.uint32 (num : Nat) (e : Encoder) : Encoder := e.uint num 4

/-- `Encoder.Uint64`. -/
def Encoder.uint64 (num : Nat) (e : Encoder) : Encoder := e.uint num 8

/-- `Encoder.Bool`: one byte, 1 for true and 0 for false. -/
def Encoder.bool (yes : Bool) (e : Encoder) : Encoder :=
  if yes then e.uint8 1 else e.uint8 0

/-- `Encoder.Float32` is `Uint32(math.Float32bits(num))`; floats are carried
as their IEEE-754 bit patterns (`bits`), on which `Float32bits` is the
identity. -/
def Encoder.float32 (bits : Nat) (e : Encoder) : Encoder := e.uint32 bits

/-- `Encoder.Float64` is `Uint64(math.Float64bits(num))`, on bit patterns. -/
def Encoder.float64 (bits : Nat) (e : Encoder) : Encoder := e.uint64 bits

/-- `Encoder.VarInt`: count `PutVarint`'s byte count, or write those bytes
and advance by their number. -/
def Encoder.varInt (num : Int) (e : Encoder) : Encoder :=
  if e.err.isSome then e
  else match e.buf with
    | none => { e with len := e.len + (putVarint num).length }
    | some (w, r) => { e with buf := some (writeAdv (putVarint num) (putVarint num).length w r) }

/-- `Encoder.VarUint`. -/
def Encoder.varUint (num : Nat) (e : Encoder) : Encoder :=
  if e.err.isSome then e
  else match e.buf with
    | none => { e with len := e.len + (putUvarint num).length }
    | some (w, r) => { e with buf := some (writeAdv (putUvarint num) (putUvarint num).length w r) }

/-- `Encoder.String` (raw): count `len(str)`, or `n := copy(e.buf, str)` and
advance by `n = min(len(str), len(remaining))`. -/
def Encoder.string (str : List Nat) (e : Encoder) : Encoder :=
  if e.err.isSome then e
  else match e.buf with
    | none => { e with len := e.len + str.length }
    | some (w, r) =>
      let n := min str.length r.length
      { e with buf := some (writeAdv (str.take n) n w r) }

/-- `Encoder.Bytes` (raw): identical to `String` over a byte slice. -/
def Encoder.bytes (buf : List Nat) (e : Encoder) : Encoder :=
  if e.err.isSome then e
  else match e.buf with
    | none => { e with len := e.len + buf.length }
    | some (w, r) =>
      let n := min buf.length r.length
      { e with buf := some (writeAdv (buf.take n) n w r) }

/-- `Encoder.FixString`: `Uint(len(str), lenSize)` then `String(str)`. -/
def Encoder.fixString (str : List Nat) (lenSize : Nat) (e : Encoder) : Encoder :=
  Encoder.string str (e.uint str.length lenSize)

/-- `Encoder.FixBytes`: `Uint(len(buf), lenSize)` then `Bytes(buf)`. -/
def Encoder.fixBytes (buf : List Nat) (lenSize : Nat) (e : Encoder) : Encoder :=
  Encoder.bytes buf (e.uint buf.length lenSize)

/-- `Encoder.VarString`: `VarUint(len(str))` then `String(str)`. -/
def Encoder.varString (str : List Nat) (e : Encoder) : Encoder :=
  Encoder.string str (e.varUint str.length)

/-- `Encoder.VarBytes`: `VarUint(len(buf))` then `Bytes(buf)`. -/
def Encoder.varBytes (buf : List Nat) (e : Encoder) : Encoder :=
  Encoder.bytes buf (e.varUint buf.length)

/-- `Encoder.DelString`: `String(str)` then `String(delim)` — the source has
no empty-delimiter check on the encode side. -/
def Encoder.delString (str delim : List Nat) (e : Encoder) : Encoder :=
  Encoder.string delim (Encoder.string str e)

/-- `Encoder.DelBytes`: `Bytes(buf)` then `Bytes(delim)`. -/
def Encoder.delBytes (buf delim : List Nat) (e : Encoder) : Encoder :=
  Encoder.bytes delim (Encoder.bytes buf e)

/-- `Encoder.Tail`: `n := copy(e.buf, buf)` and advance by `n`, exactly like
`Bytes`. -/
def Encoder.tail (buf : List Nat) (e : Encoder) : Encoder :=
  if e.err.isSome then e
  else match e.buf with
    | none => { e with len := e.len + buf.length }
    | some (w, r) =>
      let n := min buf.length r.length
      { e with buf := some (writeAdv (buf.take n) n w r) }

/-- The `encode` driver (encode.go) for callbacks that return a nil error
(all claims below use such callbacks), with a nil pool: run `fn` once in
counting mode, stop on a sticky error, otherwise allocate `make([]byte,
length)` (zeroed) and run `fn` again in writing mode over it; stop on a
sticky error, otherwise return the destination allocation. -/
def encodeF (fn : Encoder → Encoder) : Option (List Nat) :=
  let e1 := fn countInit
  if e1.err.isSome then none
  else
    let length := e1.len
    let e2 := fn (writeInit (List.replicate length 0))
    if e2.err.isSome then none
    else some ((e2.buf.map fun p => p.1 ++ p.2).getD [])

/-- The `encode` driver as used by `EncodeInto` (`withBuf = true`): the
counting pass and its error check run first, then the destination length is
checked against the count before anything is written; the result is the
caller's slice (unchanged unless the write pass ran), the written count and
the error. -/
def encodeIntoF (dst : List Nat) (fn : Encoder → Encoder) :
    List Nat × Nat × Option Err :=
  let e1 := fn countInit
  match e1.err with
  | some err => (dst, 0, some err)
  | none =>
    let length := e1.len
    if dst.length < length then (dst, 0, some .bufferTooShort)
    else
      let e2 := fn (writeInit dst)
      match e2.err with
      | some err => ((e2.buf.map fun p => p.1 ++ p.2).getD dst, 0, some err)
      | none => ((e2.buf.map fun p => p.1 ++ p.2).getD dst, length, none)

/-! ## Decoder (decode.go)

`Decoder` carries the remaining input and the sticky error; the `bo` field is
again specialized to its big-endian default.  The `clone` flags only choose
between aliasing and copying the same bytes in Go, so both branches produce
the same list here; the parameter is kept to mirror the signatures. -/

structure Decoder where
  buf : List Nat
  err : Option Err
deriving DecidableEq, Repr

/-- `bytes.Index` prefix test: does `s` start with `pat`? -/
def leadsWith : List Nat → List Nat → Bool
  | [], _ => true
  | _ :: _, [] => false
  | a :: as, b :: bs => a == b && leadsWith as bs

/-- `bytes.Index`: index of the first occurrence of `pat` in `s`
(`none` for Go's -1). -/
def firstIdx (pat s : List Nat) : Option Nat :=
  if leadsWith pat s then some 0
  else
    match s with
    | [] => none
    | _ :: t => (firstIdx pat t).map (· + 1)

/-- `Decoder.Skip`. -/
def Decoder.skip (num : Nat) (d : Decoder) : Decoder :=
  if d.err.isSome then d
  else if d.buf.length < num then { d with err := some .bufferTooShort }
  else { d with buf := d.buf.drop num }

/-- `Decoder.Uint`: sticky-error check, length check, then the size switch
(sizes 1/2/4/8 read big-endian, the default branch sets `ErrInvalidSize`). -/
def Decoder.uint (size : Nat) (d : Decoder) : Nat × Decoder :=
  if d.err.isSome then (0, d)
  else if d.buf.length < size then (0, { d with err := some .bufferTooShort })
  else match size with
    | 1 | 2 | 4 | 8 => (beUint size d.buf, { d with buf := d.buf.drop size })
    | _ => (0, { d with err := some .invalidSize })

/-- `Decoder.Int`: like `Uint` but sign extending (`int64(int8(..))` etc.). -/
def Decoder.int (size : Nat) (d : Decoder) : Int × Decoder :=
  if d.err.isSome then (0, d)
  else if d.buf.length < size then (0, { d with err := some .bufferTooShort })
  else match size with
    | 1 | 2 | 4 | 8 => (sext size (beUint size d.buf), { d with buf := d.buf.drop size })
    | _ => (0, { d with err := some .invalidSize })

/-- `Decoder.Uint8` (`uint8(d.Uint(1))`, a truncating cast). -/
def Decoder.uint8 (d : Decoder) : Nat × Decoder :=
  let (u, d1) := d.uint 1
  (u % 2 ^ 8, d1)

/-- `Decoder.Uint16`. -/
def Decoder.uint16 (d : Decoder) : Nat × Decoder :=
  let (u, d1) := d.uint 2
  (u % 2 ^ 16, d1)

/-- `Decoder.Uint32`. -/
def Decoder.uint32 (d : Decoder) : Nat × Decoder :=
  let (u, d1) := d.uint 4
  (u % 2 ^ 32, d1)

/-- `Decoder.Uint64`. -/
def Decoder.uint64 (d : Decoder) : Nat × Decoder := d.uint 8

/-- `Decoder.Int8` (`int8(d.Int(1))`, a truncating cast). -/
def Decoder.int8 (d : Decoder) : Int × Decoder :=
  let (n, d1) := d.int 1
  (sext 1 (toU64 n), d1)

/-- `Decoder.Int16`. -/
def Decoder.int16 (d : Decoder) : Int × Decoder :=
  let (n, d1) := d.int 2
  (sext 2 (toU64 n), d1)

/-- `Decoder.Int32`. -/
def Decoder.int32 (d : Decoder) : Int × Decoder :=
  let (n, d1) := d.int 4
  (sext 4 (toU64 n), d1)

/-- `Decoder.Int64`. -/
def Decoder.int64 (d : Decoder) : Int × Decoder := d.int 8

/-- `Decoder.Bool`: `d.Uint8() == 1`. -/
def Decoder.bool (d : Decoder) : Bool × Decoder :=
  let (u, d1) := d.uint8
  (u == 1, d1)

/-- `Decoder.Float32` is `math.Float32frombits(d.Uint32())`; bit patterns
are carried directly. -/
def Decoder.float32 (d : Decoder) : Nat × Decoder := d.uint32

/-- `Decoder.Float64`. -/
def Decoder.float64 (d : Decoder) : Nat × Decoder := d.uint64

/-- `Decoder.VarUint`: `binary.Uvarint`, error on `n <= 0`, else advance by
`n`. -/
def Decoder.varUint (d : Decoder) : Nat × Decoder :=
  if d.err.isSome then (0, d)
  else
    let p := uvarint d.buf
    if p.2 ≤ 0 then (0, { d with err := some .bufferTooShort })
    else (p.1, { d with buf := d.buf.drop p.2.toNat })

/-- `Decoder.VarInt`: `binary.Varint`, error on `n <= 0`, else advance. -/
def Decoder.varInt (d : Decoder) : Int × Decoder :=
  if d.err.isSome then (0, d)
  else
    let p := varint d.buf
    if p.2 ≤ 0 then (0, { d with err := some .bufferTooShort })
    else (p.1, { d with buf := d.buf.drop p.2.toNat })

/-- `Decoder.String` (raw, explicit length). -/
def Decoder.string (length : Nat) (clone : Bool) (d : Decoder) : List Nat × Decoder :=
  if d.err.isSome then ([], d)
  else if d.buf.length < length then ([], { d with err := some .bufferTooShort })
  else
    let str := d.buf.take length
    (str, { d with buf := d.buf.drop length })

/-- `Decoder.Bytes` (raw, explicit length). -/
def Decoder.bytes (length : Nat) (clone : Bool) (d : Decoder) : List Nat × Decoder :=
  if d.err.isSome then ([], d)
  else if d.buf.length < length then ([], { d with err := some .bufferTooShort })
  else
    let buf := d.buf.take length
    (buf, { d with buf := d.buf.drop length })

/-- `Decoder.FixString`: `d.String(int(d.Uint(lenSize)), clone)`. -/
def Decoder.fixString (lenSize : Nat) (clone : Bool) (d : Decoder) : List Nat × Decoder :=
  let (u, d1) := d.uint lenSize
  Decoder.string u clone d1

/-- `Decoder.FixBytes`: `d.Bytes(int(d.Uint(lenSize)), clone)`. -/
def Decoder.fixBytes (lenSize : Nat) (clone : Bool) (d : Decoder) : List Nat × Decoder :=
  let (u, d1) := d.uint lenSize
  Decoder.bytes u clone d1

/-- `Decoder.VarString`: `d.String(int(d.VarUint()), clone)`. -/
def Decoder.varString (clone : Bool) (d : Decoder) : List Nat × Decoder :=
  let (u, d1) := d.varUint
  Decoder.string u clone d1

/-- `Decoder.VarBytes`: `d.Bytes(int(d.VarUint()), clone)`. -/
def Decoder.varBytes (clone : Bool) (d : Decoder) : List Nat × Decoder :=
  let (u, d1) := d.varUint
  Decoder.bytes u clone d1

/-- `Decoder.DelString`: empty-delimiter check, `bytes.Index` scan (miss
sets `ErrBufferTooShort`), field is everything before the hit, the delimiter
is consumed. -/
def Decoder.delString (delim : List Nat) (clone : Bool) (d : Decoder) : List Nat × Decoder :=
  if d.err.isSome then ([], d)
  else if delim.length = 0 then ([], { d with err := some .emptyDelimiter })
  else match firstIdx delim d.buf with
    | none => ([], { d with err := some .bufferTooShort })
    | some idx => (d.buf.take idx, { d with buf := d.buf.drop (idx + delim.length) })

/-- `Decoder.DelBytes`. -/
def Decoder.delBytes (delim : List Nat) (clone : Bool) (d : Decoder) : List Nat × Decoder :=
  if d.err.isSome then ([], d)
  else if delim.length = 0 then ([], { d with err := some .emptyDelimiter })
  else match firstIdx delim d.buf with
    | none => ([], { d with err := some .bufferTooShort })
    | some idx => (d.buf.take idx, { d with buf := d.buf.drop (idx + delim.length) })

/-- `Decoder.Tail`: `d.Bytes(len(d.buf), clone)`. -/
def Decoder.tail (clone : Bool) (d : Decoder) : List Nat × Decoder :=
  Decoder.bytes d.buf.length clone d

/-- The `Decode` driver (decode.go): run the callback once on a fresh
decoder over `bytes`; a callback error is returned as-is (skipping the other
checks), then the sticky error, then `ErrRemainingBytes` if input remains. -/
def decodeD (bytes : List Nat) (fn : Decoder → Option Err × Decoder) : Option Err :=
  let p := fn (Decoder.mk bytes none)
  match p.1 with
  | some err => some err
  | none =>
    match p.2.err with
    | some err => some err
    | none => if p.2.buf.length ≠ 0 then some .remainingBytes else none

/-! ## Deep embedding of callback operation sequences

A deterministic, non-erroring encode/decode callback is a list of primitive
operations; the decode side runs the symmetric reads.  `Val` is the value a
read returns (floats as bit patterns). -/

inductive Val where
  | b (x : Bool)
  | i (x : Int)
  | u (x : Nat)
  | bs (x : List Nat)
deriving DecidableEq, Repr

inductive Op where
  | skip (n : Nat)
  | bool (b : Bool)
  | i8 (n : Int)
  | i16 (n : Int)
  | i32 (n : Int)
  | i64 (n : Int)
  | u8 (n : Nat)
  | u16 (n : Nat)
  | u32 (n : Nat)
  | u64 (n : Nat)
  | f32 (bits : Nat)
  | f64 (bits : Nat)
  | varI (n : Int)
  | varU (n : Nat)
  | str (s : List Nat)
  | bytes (s : List Nat)
  | fixStr (s : List Nat) (lenSize : Nat)
  | fixBytes (s : List Nat) (lenSize : Nat)
  | varStr (s : List Nat)
  | varBytes (s : List Nat)
  | delStr (s delim : List Nat)
  | delBytes (s delim : List Nat)
  | tail (s : List Nat)
deriving DecidableEq, Repr

/-- Run one operation through the corresponding `Encoder` method. -/
def applyEncOp (op : Op) (e : Encoder) : Encoder :=
  match op with
  | .skip n => e.skip n
  | .bool b => e.bool b
  | .i8 n => e.int8 n
  | .i16 n => e.int16 n
  | .i32 n => e.int32 n
  | .i64 n => e.int64 n
  | .u8 n => e.uint8 n
  | .u16 n => e.uint16 n
  | .u32 n => e.uint32 n
  | .u64 n => e.uint64 n
  | .f32 bits => e.float32 bits
  | .f64 bits => e.float64 bits
  | .varI n => e.varInt n
  | .varU n => e.varUint n
  | .str s => e.string s
  | .bytes s => e.bytes s
  | .fixStr s lenSize => e.fixString s lenSize
  | .fixBytes s lenSize => e.fixBytes s lenSize
  | .varStr s => e.varString s
  | .varBytes s => e.varBytes s
  | .delStr s delim => e.delString s delim
  | .delBytes s delim => e.delBytes s delim
  | .tail s => e.tail s

/-- Run the symmetric read for one operation, returning the values it
produced (none for `skip`). -/
def applyDecOp (op : Op) (d : Decoder) : List Val × Decoder :=
  match op with
  | .skip n => ([], d.skip n)
  | .bool _ => let p := d.bool; ([.b p.1], p.2)
  | .i8 _ => let p := d.int8; ([.i p.1], p.2)
  | .i16 _ => let p := d.int16; ([.i p.1], p.2)
  | .i32 _ => let p := d.int32; ([.i p.1], p.2)
  | .i64 _ => let p := d.int64; ([.i p.1], p.2)
  | .u8 _ => let p := d.uint8; ([.u p.1], p.2)
  | .u16 _ => let p := d.uint16; ([.u p.1], p.2)
  | .u32 _ => let p := d.uint32; ([.u p.1], p.2)
  | .u64 _ => let p := d.uint64; ([.u p.1], p.2)
  | .f32 _ => let p := d.float32; ([.u p.1], p.2)
  | .f64 _ => let p := d.float64; ([.u p.1], p.2)
  | .varI _ => let p := d.varInt; ([.i p.1], p.2)
  | .varU _ => let p := d.varUint; ([.u p.1], p.2)
  | .str s => let p := Decoder.string s.length true d; ([.bs p.1], p.2)
  | .bytes s => let p := Decoder.bytes s.length true d; ([.bs p.1], p.2)
  | .fixStr _ lenSize => let p := Decoder.fixString lenSize true d; ([.bs p.1], p.2)
  | .fixBytes _ lenSize => let p := Decoder.fixBytes lenSize true d; ([.bs p.1], p.2)
  | .varStr _ => let p := Decoder.varString true d; ([.bs p.1], p.2)
  | .varBytes _ => let p := Decoder.varBytes true d; ([.bs p.1], p.2)
  | .delStr _ delim => let p := Decoder.delString delim true d; ([.bs p.1], p.2)
  | .delBytes _ delim => let p := Decoder.delBytes delim true d; ([.bs p.1], p.2)
  | .tail _ => let p := Decoder.tail true d; ([.bs p.1], p.2)

/-- The values an operation carries (what a successful symmetric read
returns). -/
def opValues (op : Op) : List Val :=
  match op with
  | .skip _ => []
  | .bool b => [.b b]
  | .i8 n | .i16 n | .i32 n | .i64 n => [.i n]
  | .u8 n | .u16 n | .u32 n | .u64 n => [.u n]
  | .f32 bits | .f64 bits => [.u bits]
  | .varI n => [.i n]
  | .varU n => [.u n]
  | .str s | .bytes s => [.bs s]
  | .fixStr s _ | .fixBytes s _ => [.bs s]
  | .varStr s | .varBytes s => [.bs s]
  | .delStr s _ | .delBytes s _ => [.bs s]
  | .tail s => [.bs s]

/-- The bytes a valid, in-range operation writes. -/
def opBytes (op : Op) : List Nat :=
  match op with
  | .skip n => List.replicate n 0
  | .bool b => [if b then 1 else 0]
  | .i8 n => beBytes 1 (toU64 n)
  | .i16 n => beBytes 2 (toU64 n)
  | .i32 n => beBytes 4 (toU64 n)
  | .i64 n => beBytes 8 (toU64 n)
  | .u8 n => beBytes 1 n
  | .u16 n => beBytes 2 n
  | .u32 n => beBytes 4 n
  | .u64 n => beBytes 8 n
  | .f32 bits => beBytes 4 bits
  | .f64 bits => beBytes 8 bits
  | .varI n => putVarint n
  | .varU n => putUvarint n
  | .str s | .bytes s => s
  | .fixStr s lenSize | .fixBytes s lenSize => beBytes lenSize s.length ++ s
  | .varStr s | .varBytes s => putUvarint s.length ++ s
  | .delStr s delim | .delBytes s delim => s ++ delim
  | .tail s => s

/-- The bytes a whole valid operation sequence writes. -/
def encB (ops : List Op) : List Nat := (ops.map opBytes).flatten

/-- The values a whole sequence carries. -/
def opsValues (ops : List Op) : List Val := (ops.map opValues).flatten

/-- In-range side conditions of one operation (the claims' "values are in
range"): integers fit their width, length prefixes fit their prefix width
and sizes are legal, a delimiter is non-empty and its first occurrence in
the remaining encoded stream is exactly at the end of the payload, and
`tail` is the last operation. -/
def validOp (op : Op) (rest : List Op) : Bool :=
  match op with
  | .skip _ => true
  | .bool _ => true
  | .i8 n => decide (-(2 ^ 7) ≤ n) && decide (n < 2 ^ 7)
  | .i16 n => decide (-(2 ^ 15) ≤ n) && decide (n < 2 ^ 15)
  | .i32 n => decide (-(2 ^ 31) ≤ n) && decide (n < 2 ^ 31)
  | .i64 n => decide (-(2 ^ 63) ≤ n) && decide (n < 2 ^ 63)
  | .u8 n => decide (n < 2 ^ 8)
  | .u16 n => decide (n < 2 ^ 16)
  | .u32 n => decide (n < 2 ^ 32)
  | .u64 n => decide (n < 2 ^ 64)
  | .f32 bits => decide (bits < 2 ^ 32)
  | .f64 bits => decide (bits < 2 ^ 64)
  | .varI n => decide (-(2 ^ 63) ≤ n) && decide (n < 2 ^ 63)
  | .varU n => decide (n < 2 ^ 64)
  | .str _ => true
  | .bytes _ => true
  | .fixStr s lenSize | .fixBytes s lenSize =>
    (lenSize == 1 || lenSize == 2 || lenSize == 4 || lenSize == 8) &&
      decide (s.length < 2 ^ (8 * lenSize))
  | .varStr s | .varBytes s => decide (s.length < 2 ^ 64)
  | .delStr s delim | .delBytes s delim =>
    decide (delim ≠ []) && (firstIdx delim (s ++ delim ++ encB rest) == some s.length)
  | .tail _ => rest.isEmpty

/-- In-range side conditions of a sequence. -/
def validOps : List Op → Bool
  | [] => true
  | op :: rest => validOp op rest && validOps rest

/-- Fold a sequence through the encoder. -/
def encodeRun (ops : List Op) (e : Encoder) : Encoder :=
  ops.foldl (fun e op => applyEncOp op e) e

/-- Fold a sequence through the decoder, collecting values. -/
def decodeRun : List Op → Decoder → List Val × Decoder
  | [], d => ([], d)
  | op :: rest, d =>
    let p := applyDecOp op d
    let q := decodeRun rest p.2
    (p.1 ++ q.1, q.2)

def c1ops : List Op :=
  [.bool true, .bool false,
   .i8 (-(2 ^ 7)), .i8 (2 ^ 7 - 1), .i16 (-(2 ^ 15)), .i16 (2 ^ 15 - 1),
   .i32 (-(2 ^ 31)), .i32 (2 ^ 31 - 1), .i64 (-(2 ^ 63)), .i64 (2 ^ 63 - 1),
   .u8 (2 ^ 8 - 1), .u16 (2 ^ 16 - 1), .u32 (2 ^ 32 - 1), .u64 (2 ^ 64 - 1),
   .f32 0x7FC00000, .f32 0x7F800000, .f64 0x7FF8000000000000,
   .varI (-(2 ^ 63)), .varI (2 ^ 63 - 1), .varI (-1),
   .varU (2 ^ 64 - 1), .varU 0,
   .skip 3,
   .str [102, 111, 111], .bytes [1, 2, 3],
   .fixStr [97, 98] 1, .fixBytes [5, 6, 7] 2,
   .varStr [120], .varBytes [],
   .delStr [102, 111, 111] [0], .delBytes [98, 97, 114] [0],
   .tail [9, 8, 7]]

def zeroVals (op : Op) : List Val :=
  match op with
  | .skip _ => []
  | .bool _ => [.b false]
  | .i8 _ | .i16 _ | .i32 _ | .i64 _ | .varI _ => [.i 0]
  | .u8 _ | .u16 _ | .u32 _ | .u64 _ | .f32 _ | .f64 _ | .varU _ => [.u 0]
  | .str _ | .bytes _ => [.bs []]
  | .fixStr _ _ | .fixBytes _ _ => [.bs []]
  | .varStr _ | .varBytes _ => [.bs []]
  | .delStr _ _ | .delBytes _ _ => [.bs []]
  | .tail _ => [.bs []]

def c2ops : List Op := [.u16 40000, .varU 300, .str [104, 105]]

def oneRead : Decoder → Option Err × Decoder :=
  fun d => (none, (Decoder.uint8 d).2)

def twoReads : Decoder → Option Err × Decoder :=
  fun d => (none, (Decoder.uint8 (Decoder.uint8 d).2).2)

def constCallbackErr : Decoder → Option Err × Decoder :=
  fun d => (some .callback, { d with err := some .bufferTooShort })

/-- A callback that returns a nil error but trips the decoder's sticky error
while leaving its input unread: a `Uint64` read from a 2-byte buffer. -/
def badRead : Decoder → Option Err × Decoder :=
  fun d => (none, (Decoder.uint 8 d).2)

def overlongVarint : List Nat := [255, 255, 255, 255, 255, 255, 255, 255, 255, 127]

/-! ## Pool (pool.go)

`bits.Len64` of the requested length selects the size class; generations are
drawn from the shared counter.  `BorrowResult` records what `Borrow` returns
for a request: the slice length, the slice capacity (the class's backing
array when pooled, or exactly `len` for a direct `make`), and whether a live
(non-zero) Ref was issued. -/

def bitsLenGo : Nat → Nat → Nat
  | 0, _ => 0
  | fuel + 1, n => if n = 0 then 0 else bitsLenGo fuel (n / 2) + 1

/-- `bits.Len64`: the number of bits needed to represent a 64-bit value. -/
def bitsLen64 (n : Nat) : Nat := bitsLenGo 64 n

structure BorrowResult where
  blen : Nat
  cap : Nat
  pooled : Bool
deriving DecidableEq, Repr

/-- `Pool.Borrow` (pool.go): `pool := bits.Len64(uint64(len)) - 10`, clamped
to 0 below and sent to -1 at 16 and above; lengths below 9 or with pool -1
are allocated directly with a zero Ref; otherwise the slice is a view of
length `len` into the class's `1 << (pool+10)`-byte buffer. -/
def borrowModel (len : Nat) : BorrowResult :=
  let pool : Int := (bitsLen64 len : Int) - 10
  let pool : Int := if pool < 0 then 0 else if 16 ≤ pool then -1 else pool
  if len < 9 ∨ pool = -1 then ⟨len, len, false⟩
  else ⟨len, 2 ^ (pool.toNat + 10), true⟩

/-- The pool's 16 size classes, 1 KiB to 32 MiB (the `index` of the tests). -/
def classList : List Nat :=
  [1024, 2048, 4096, 8192, 16384, 32768, 65536, 131072, 262144, 524288,
   1048576, 2097152, 4194304, 8388608, 16777216, 33554432]

/-- Stated from the spec's words for comparison: "the smallest class ≥ len". -/
def specSmallestClassGE (len : Nat) : Option Nat :=
  classList.find? (fun c => decide (len ≤ c))

/-- Sequential pool state for the generation protocol: the shared counter
and the generation tag of the (reused) descriptor. -/
structure PoolS where
  counter : Nat
  gen : Nat
deriving DecidableEq, Repr

/-- A Ref value: the zero Ref, or a live Ref capturing a generation. -/
inductive RefM where
  | zero
  | live (gen : Nat)
deriving DecidableEq, Repr

/-- Outcome of `Ref.Release`: silent no-op (zero Ref), successful CAS, or
the `panic("fpack: generation mismatch")`. -/
inductive RelRes where
  | noop
  | ok
  | genMismatch
deriving DecidableEq, Repr

/-- The generation draw of `Borrow`: `gen = AddUint64(&p.gen, 1)` and, if the
result is zero (wraparound), one more increment.  Returns the new counter
and the drawn generation. -/
def nextGen (c : Nat) : Nat × Nat :=
  let c1 := (c + 1) % 2 ^ 64
  if c1 = 0 then ((c1 + 1) % 2 ^ 64, (c1 + 1) % 2 ^ 64) else (c1, c1)

/-- `Pool.Borrow`'s generation protocol on the reused descriptor: stamp the
fresh generation on it and capture it in the returned Ref. -/
def borrowRef (p : PoolS) : RefM × PoolS :=
  let ng := nextGen p.counter
  (.live ng.2, ⟨ng.1, ng.2⟩)

/-- `Ref.Release` (pool.go): zero Refs are no-ops; otherwise the CAS
`CompareAndSwapUint64(&r.buf.gen, r.gen, 0)` clears the descriptor's
generation on match and panics with a generation mismatch otherwise. -/
def releaseRef (r : RefM) (descGen : Nat) : RelRes × Nat :=
  match r with
  | .zero => (.noop, descGen)
  | .live g => if descGen = g then (.ok, 0) else (.genMismatch, descGen)

/-! ## Buffer (buffer.go)

`Buffer` keeps its data in fixed-size pooled chunks of `alloc` bytes each.
Chunks borrowed from the pool are NOT zeroed, so the model takes a `junk`
oracle giving the arbitrary prior contents of the i-th chunk ever appended.
`Buffer.iterate` is a loop that advances by the visited part's length, which
is at least one byte per step whenever `alloc ≥ 1` and the chunks cover the
range, so fuel `stop - start` makes the recursion total; on a starved state
the fuel runs out and the functions return the current state, a situation the
Go loop (which would spin or panic there) is never run in. -/

structure BufferM where
  alloc : Nat
  length : Nat
  chunks : List (List Nat)
deriving Repr

/-- `NewBuffer`: empty buffer (the pool and seek offset play no part in
`write`/`read` at fixed offsets and are omitted). -/
def newBuffer (alloc : Nat) : BufferM := ⟨alloc, 0, []⟩

/-- `Buffer.grow`: append enough pooled (unzeroed) chunks and raise the
length.  Go computes `n := length/alloc + 1 - len(chunks)` in int arithmetic
and runs the append loop only while `i < n`; Nat subtraction truncates a
negative `n` to 0 the same way. -/
def growB (junk : Nat → List Nat) (b : BufferM) (length : Nat) : BufferM :=
  if length ≤ b.length then b
  else
    let n := length / b.alloc + 1 - b.chunks.length
    { b with
      chunks := b.chunks ++ (List.range n).map (fun i => junk (b.chunks.length + i))
      length := length }

/-- The zero-gap pass of `Buffer.write`: `iterate(length, off)` with a
callback that stores 0 over the visited part of each chunk. -/
def zeroIter (fuel : Nat) (b : BufferM) (pos stop : Nat) : BufferM :=
  match fuel with
  | 0 => b
  | fuel + 1 =>
    if pos < stop then
      let idx := pos / b.alloc
      let off := pos % b.alloc
      let ch := b.chunks.getD idx []
      let plen := min (ch.length - off) (stop - pos)
      let ch1 := ch.take off ++ List.replicate plen 0 ++ ch.drop (off + plen)
      zeroIter fuel { b with chunks := b.chunks.set idx ch1 } (pos + plen) stop
    else b

/-- The data pass of `Buffer.write`: `iterate(off, off+len(buf))` with
`copy(chunk, buf[loc:])`, which copies `min (part length) (len buf - loc)`
bytes and leaves the rest of the part untouched. -/
def copyIter (fuel : Nat) (data : List Nat) (start : Nat) (b : BufferM) (pos stop : Nat) : BufferM :=
  match fuel with
  | 0 => b
  | fuel + 1 =>
    if pos < stop then
      let idx := pos / b.alloc
      let off := pos % b.alloc
      let ch := b.chunks.getD idx []
      let plen := min (ch.length - off) (stop - pos)
      let m := min plen (data.length - (pos - start))
      let ch1 := ch.take off ++ (data.drop (pos - start)).take m ++ ch.drop (off + m)
      copyIter fuel data start { b with chunks := b.chunks.set idx ch1 } (pos + plen) stop
    else b

/-- The data pass of `Buffer.read`: `iterate(off, off+len(buf))` with
`copy(buf[loc:], chunk)`; `out` is the caller's buffer being filled. -/
def readIter (fuel : Nat) (b : BufferM) (out : List Nat) (start pos stop : Nat) : List Nat :=
  match fuel with
  | 0 => out
  | fuel + 1 =>
    if pos < stop then
      let idx := pos / b.alloc
      let off := pos % b.alloc
      let ch := b.chunks.getD idx []
      let plen := min (ch.length - off) (stop - pos)
      let part := (ch.drop off).take plen
      let m := min (out.length - (pos - start)) plen
      let out1 := out.take (pos - start) ++ part.take m ++ out.drop (pos - start + m)
      readIter fuel b out1 start (pos + plen) stop
    else out

/-- `Buffer.write` at a `Nat` offset (Go's `off < 0` check cannot fire):
grow to `off+len(buf)`, zero-fill the gap `[old length, off)`, copy the data
over `[off, off+len(buf))`. -/
def writeB (junk : Nat → List Nat) (b : BufferM) (off : Nat) (data : List Nat) : BufferM :=
  let length := b.length
  let b1 := growB junk b (off + data.length)
  let b2 := zeroIter (off - length) b1 length off
  copyIter data.length data off b2 off (off + data.length)

/-- `Buffer.read` at a `Nat` offset into a caller buffer with arbitrary
prior contents `scratch`: EOF at or past the end, otherwise truncate the
destination to the buffer length and copy; returns the filled destination
(Go leaves any truncated caller tail untouched in place), the byte count and
the error. -/
def readB (b : BufferM) (off : Nat) (scratch : List Nat) : List Nat × Nat × Option Err :=
  if b.length ≤ off then (scratch, 0, some .eof)
  else
    let buf := if b.length < off + scratch.length then scratch.take (b.length - off) else scratch
    (readIter buf.length b buf off off (off + buf.length), buf.length, none)

/-- The buffer contents as one flat list. -/
def bflat (b : BufferM) : List Nat := b.chunks.flatten

/-- Total capacity of the borrowed chunks. -/
def bcap (b : BufferM) : Nat := b.chunks.length * b.alloc

/-- Well-formed buffer: positive allocation size and every chunk of exactly
`alloc` bytes, as `grow` produces them. -/
def BWF (b : BufferM) : Prop := 1 ≤ b.alloc ∧ ∀ c ∈ b.chunks, c.length = b.alloc

/-! ## Theorems -/

/-! ## Arithmetic bridge lemmas -/

theorem lor_shiftLeft_eq_add {k a : Nat} (b : Nat) (h : a < 2 ^ k) :
    a ||| b <<< k = a + b <<< k := by
  induction k generalizing a b with
  | zero => interval_cases a; simp
  | succ k ih =>
    have hd : a / 2 < 2 ^ k := by omega
    have e1 : a = Nat.bit (decide (a % 2 = 1)) (a / 2) := by
      rcases Nat.mod_two_eq_zero_or_one a with hm | hm <;> simp [Nat.bit, hm] <;> omega
    have e2 : b <<< (k + 1) = Nat.bit false (b <<< k) := by
      simp [Nat.bit, Nat.shiftLeft_eq, Nat.pow_succ]; ring
    rw [e1, e2, Nat.lor_bit]
    have hih := ih (a := a / 2) (b := b) hd
    rw [Nat.bit_val, Nat.bit_val, hih, Bool.or_false]
    rcases Nat.mod_two_eq_zero_or_one a with hm | hm <;> simp [hm] <;> omega

theorem putUvarint_length_le {x : Nat} {m : Nat} (h : x < 2 ^ (7 * m)) (hm : 1 ≤ m) :
    (putUvarint x).length ≤ m := by
  induction m generalizing x with
  | zero => omega
  | succ m ih =>
    rw [putUvarint]
    split
    · rename_i hx
      have hm0 : 1 ≤ m := by
        by_contra hc
        have : m = 0 := by omega
        subst this
        norm_num at h
        omega
      have hx' : x / 2 ^ 7 < 2 ^ (7 * m) := by
        apply Nat.div_lt_of_lt_mul
        have : 7 * (m + 1) = 7 + 7 * m := by ring
        rw [this, pow_add] at h
        exact h
      simpa using Nat.succ_le_succ (ih hx' hm0)
    · simp

theorem uvarintGo_putUvarint (x : Nat) : ∀ (i acc : Nat) (rest : List Nat),
    x < 2 ^ (64 - 7 * i) → i ≤ 9 → acc < 2 ^ (7 * i) →
    uvarintGo (putUvarint x ++ rest) i (7 * i) acc
      = (acc + x <<< (7 * i), ((i + (putUvarint x).length : Nat) : Int)) := by
  induction x using Nat.strong_induction_on with
  | _ x IH =>
    intro i acc rest hx hi hacc
    rw [putUvarint]
    split
    · rename_i hge
      -- continuation byte case: x ≥ 128
      have hi8 : i ≤ 8 := by
        by_contra hc
        have h9 : i = 9 := by omega
        subst h9
        norm_num at hx
        omega
      have hxr : x / 2 ^ 7 < 2 ^ (64 - 7 * (i + 1)) := by
        apply Nat.div_lt_of_lt_mul
        have h1 : 64 - 7 * i = (64 - 7 * (i + 1)) + 7 := by omega
        rw [h1, pow_add, mul_comm] at hx
        exact hx
      have hshift : (x % 2 ^ 7) <<< (7 * i) < 2 ^ (7 * i + 7) := by
        have := Nat.shiftLeft_lt (x := x % 2 ^ 7) (n := 7) (m := 7 * i) (by omega)
        have h2 : 7 + 7 * i = 7 * i + 7 := by omega
        rwa [h2] at this
      have hpow : (2:Nat) ^ (7 * i + 7) ≤ 2 ^ 64 := Nat.pow_le_pow_right (by omega) (by omega)
      have hmod1 : (x % 2 ^ 7) <<< (7 * i) % 2 ^ 64 = (x % 2 ^ 7) <<< (7 * i) :=
        Nat.mod_eq_of_lt (by omega)
      have hlor := lor_shiftLeft_eq_add (k := 7 * i) (a := acc) (x % 2 ^ 7) hacc
      have haccnew : acc + (x % 2 ^ 7) <<< (7 * i) < 2 ^ (7 * (i + 1)) := by
        have hb : x % 2 ^ 7 ≤ 127 := by omega
        have hm : x % 2 ^ 7 * 2 ^ (7 * i) ≤ 127 * 2 ^ (7 * i) :=
          Nat.mul_le_mul_right _ hb
        have hp : (2:Nat) ^ (7 * (i + 1)) = 128 * 2 ^ (7 * i) := by
          have h6 : 7 * (i + 1) = 7 + 7 * i := by ring
          rw [h6, pow_add]; norm_num
        rw [Nat.shiftLeft_eq, hp]
        omega
      have hmod2 : (acc + (x % 2 ^ 7) <<< (7 * i)) % 2 ^ 64 = acc + (x % 2 ^ 7) <<< (7 * i) := by
        apply Nat.mod_eq_of_lt
        have : (2:Nat) ^ (7 * (i + 1)) ≤ 2 ^ 64 := Nat.pow_le_pow_right (by omega) (by omega)
        omega
    -- evaluate one loop step
      rw [List.cons_append, uvarintGo]
      have hb1 : ¬ (x % 2 ^ 7 + 2 ^ 7 < 2 ^ 7) := by omega
      have hb2 : ¬ (i = 10) := by omega
      simp only [if_neg hb2, if_neg hb1]
      have hbmod : (x % 2 ^ 7 + 2 ^ 7) % 2 ^ 7 = x % 2 ^ 7 := by omega
      rw [hbmod, hmod1, hlor, hmod2]
      have h7 : 7 * i + 7 = 7 * (i + 1) := by omega
      rw [h7]
      have := IH (x / 2 ^ 7) (Nat.div_lt_self (by omega) (by norm_num)) (i + 1)
        (acc + (x % 2 ^ 7) <<< (7 * i)) rest hxr (by omega) haccnew
      rw [this]
      simp only [Prod.mk.injEq]
      constructor
      · -- value equality
        simp only [Nat.shiftLeft_eq]
        have hx7 : x = 2 ^ 7 * (x / 2 ^ 7) + x % 2 ^ 7 := (Nat.div_add_mod x (2 ^ 7)).symm
        have h4 : (2:Nat) ^ (7 * (i + 1)) = 2 ^ (7 * i) * 2 ^ 7 := by
          rw [show 7 * (i + 1) = 7 * i + 7 by ring, pow_add]
        rw [h4]
        conv_rhs => rw [hx7]
        ring
      · -- length equality
        simp only [List.length_cons]
        push_cast
        omega
    · rename_i hlt
      push_neg at hlt
      -- final byte: x < 128
      have h9 : i = 9 → x ≤ 1 := by
        intro h
        subst h
        norm_num at hx
        omega
      rw [List.cons_append, uvarintGo]
      have hb2 : ¬ (i = 10) := by omega
      have hcond : ¬ (i = 9 ∧ x > 1) := by
        rintro ⟨h1, h2⟩
        have := h9 h1
        omega
      simp only [if_neg hb2, if_pos hlt, if_neg hcond]
      have hshift : x <<< (7 * i) < 2 ^ 64 := by
        rcases Nat.eq_or_lt_of_le hi with h | h
        · have hx2 : x ≤ 1 := h9 h
          have : x <<< (7 * i) ≤ 1 <<< (7 * i) := by
            simp only [Nat.shiftLeft_eq]
            exact Nat.mul_le_mul_right _ (by omega)
          have h1 : (1:Nat) <<< (7 * i) = 2 ^ (7 * i) := by simp [Nat.shiftLeft_eq]
          have h2 : (2:Nat) ^ (7 * i) ≤ 2 ^ 63 := Nat.pow_le_pow_right (by omega) (by omega)
          omega
        · have := Nat.shiftLeft_lt (x := x) (n := 7) (m := 7 * i) hlt
          have h2 : (2:Nat) ^ (7 + 7 * i) ≤ 2 ^ 64 := Nat.pow_le_pow_right (by omega) (by omega)
          omega
      rw [Nat.mod_eq_of_lt hshift, lor_shiftLeft_eq_add x hacc]
      simp only [List.length_cons, List.length_nil, Prod.mk.injEq, true_and]
      push_cast
      omega

theorem uvarint_putUvarint (x : Nat) (hx : x < 2 ^ 64) (rest : List Nat) :
    uvarint (putUvarint x ++ rest) = (x, ((putUvarint x).length : Int)) := by
  have := uvarintGo_putUvarint x 0 0 rest (by simpa using hx) (by omega) (by norm_num)
  simpa [uvarint] using this

theorem zigzag_lt (x : Int) : zigzag x < 2 ^ 64 := by
  unfold zigzag toU64
  split <;> omega

theorem unzig_zigzag (x : Int) (h1 : -(2 ^ 63) ≤ x) (h2 : x < 2 ^ 63) :
    unzig (zigzag x) = x := by
  unfold unzig zigzag toU64
  split <;> split <;> omega

theorem varint_putVarint (x : Int) (h1 : -(2 ^ 63) ≤ x) (h2 : x < 2 ^ 63)
    (rest : List Nat) :
    varint (putVarint x ++ rest) = (x, ((putVarint x).length : Int)) := by
  have hz := zigzag_lt x
  unfold varint putVarint
  rw [uvarint_putUvarint _ hz rest]
  simp [unzig_zigzag x h1 h2]

theorem beBytes_length {size : Nat} (num : Nat)
    (hs : size = 1 ∨ size = 2 ∨ size = 4 ∨ size = 8) :
    (beBytes size num).length = size := by
  rcases hs with h | h | h | h <;> subst h <;> simp [beBytes]

theorem beUint_beBytes {size : Nat} (num : Nat) (rest : List Nat)
    (hs : size = 1 ∨ size = 2 ∨ size = 4 ∨ size = 8) :
    beUint size (beBytes size num ++ rest) = num % 2 ^ (8 * size) := by
  rcases hs with h | h | h | h <;> subst h <;>
    simp [beBytes, beUint, List.take, List.foldl] <;> omega

theorem sext_toU64 {size : Nat} (n : Int)
    (hs : size = 1 ∨ size = 2 ∨ size = 4 ∨ size = 8)
    (h1 : -(2 ^ (8 * size - 1)) ≤ n) (h2 : n < 2 ^ (8 * size - 1)) :
    sext size (toU64 n) = n := by
  unfold sext toU64
  rcases hs with h | h | h | h <;> subst h <;> norm_num at h1 h2 ⊢ <;> omega

/-! ## Per-operation lemmas -/

theorem writeAdv_exact {bs : List Nat} {adv : Nat} (w r : List Nat)
    (hlen : bs.length = adv) (hr : adv ≤ r.length) :
    writeAdv bs adv w r = (w ++ bs, r.drop adv) := by
  subst hlen
  unfold writeAdv
  simp only [List.take_left, List.drop_left]

theorem intOverflow_eq_false {n : Int} {size : Nat}
    (hs : size = 1 ∨ size = 2 ∨ size = 4 ∨ size = 8)
    (h1 : -(2 ^ (8 * size - 1)) ≤ n) (h2 : n < 2 ^ (8 * size - 1)) :
    intOverflow n size = false := by
  rcases hs with h | h | h | h <;> subst h <;>
    simp only [intOverflow, Bool.or_eq_false_iff, decide_eq_false_iff_not, not_lt] <;>
    norm_num at h1 h2 ⊢ <;> omega

theorem uintOverflow_eq_false {num size : Nat}
    (hs : size = 1 ∨ size = 2 ∨ size = 4 ∨ size = 8)
    (h : num < 2 ^ (8 * size)) :
    uintOverflow num size = false := by
  rcases hs with hx | hx | hx | hx <;> subst hx <;>
    simp only [uintOverflow, decide_eq_false_iff_not, not_lt] <;>
    norm_num at h ⊢ <;> omega

theorem uint_count {num size : Nat} (L : Nat) (h : uintOverflow num size = false) :
    Encoder.uint num size ⟨L, none, none⟩ = ⟨L + size, none, none⟩ := by
  simp [Encoder.uint, h]

theorem int_count {n : Int} {size : Nat} (L : Nat) (h : intOverflow n size = false) :
    Encoder.int n size ⟨L, none, none⟩ = ⟨L + size, none, none⟩ := by
  simp [Encoder.int, h]

theorem skip_count (num L : Nat) :
    Encoder.skip num ⟨L, none, none⟩ = ⟨L + num, none, none⟩ := rfl

theorem string_count (s : List Nat) (L : Nat) :
    Encoder.string s ⟨L, none, none⟩ = ⟨L + s.length, none, none⟩ := rfl

theorem bytes_count (s : List Nat) (L : Nat) :
    Encoder.bytes s ⟨L, none, none⟩ = ⟨L + s.length, none, none⟩ := rfl

theorem tail_count (s : List Nat) (L : Nat) :
    Encoder.tail s ⟨L, none, none⟩ = ⟨L + s.length, none, none⟩ := rfl

theorem varUint_count (num : Nat) (L : Nat) :
    Encoder.varUint num ⟨L, none, none⟩ = ⟨L + (putUvarint num).length, none, none⟩ := rfl

theorem varInt_count (num : Int) (L : Nat) :
    Encoder.varInt num ⟨L, none, none⟩ = ⟨L + (putVarint num).length, none, none⟩ := rfl

theorem uint_write {num size : Nat} (h : uintOverflow num size = false)
    (hs : size = 1 ∨ size = 2 ∨ size = 4 ∨ size = 8)
    (L : Nat) (w r : List Nat) (hr : size ≤ r.length) :
    Encoder.uint num size ⟨L, some (w, r), none⟩
      = ⟨L, some (w ++ beBytes size num, r.drop size), none⟩ := by
  simp [Encoder.uint, h, writeAdv_exact w r (beBytes_length num hs) hr]

theorem int_write {n : Int} {size : Nat} (h : intOverflow n size = false)
    (hs : size = 1 ∨ size = 2 ∨ size = 4 ∨ size = 8)
    (L : Nat) (w r : List Nat) (hr : size ≤ r.length) :
    Encoder.int n size ⟨L, some (w, r), none⟩
      = ⟨L, some (w ++ beBytes size (toU64 n), r.drop size), none⟩ := by
  simp [Encoder.int, h, writeAdv_exact w r (beBytes_length (toU64 n) hs) hr]

theorem skip_write (num L : Nat) (w r : List Nat) (hr : num ≤ r.length) :
    Encoder.skip num ⟨L, some (w, r), none⟩
      = ⟨L, some (w ++ List.replicate num 0, r.drop num), none⟩ := by
  simp [Encoder.skip, writeAdv_exact w r (List.length_replicate num 0) hr]

theorem string_write (s : List Nat) (L : Nat) (w r : List Nat) (hr : s.length ≤ r.length) :
    Encoder.string s ⟨L, some (w, r), none⟩
      = ⟨L, some (w ++ s, r.drop s.length), none⟩ := by
  have hmin : min s.length r.length = s.length := Nat.min_eq_left hr
  simp only [Encoder.string, Option.isSome_none, Bool.false_eq_true, if_false, hmin,
    List.take_length, writeAdv_exact w r rfl hr]

theorem bytes_write (s : List Nat) (L : Nat) (w r : List Nat) (hr : s.length ≤ r.length) :
    Encoder.bytes s ⟨L, some (w, r), none⟩
      = ⟨L, some (w ++ s, r.drop s.length), none⟩ := by
  have hmin : min s.length r.length = s.length := Nat.min_eq_left hr
  simp only [Encoder.bytes, Option.isSome_none, Bool.false_eq_true, if_false, hmin,
    List.take_length, writeAdv_exact w r rfl hr]

theorem tail_write (s : List Nat) (L : Nat) (w r : List Nat) (hr : s.length ≤ r.length) :
    Encoder.tail s ⟨L, some (w, r), none⟩
      = ⟨L, some (w ++ s, r.drop s.length), none⟩ := by
  have hmin : min s.length r.length = s.length := Nat.min_eq_left hr
  simp only [Encoder.tail, Option.isSome_none, Bool.false_eq_true, if_false, hmin,
    List.take_length, writeAdv_exact w r rfl hr]

theorem varUint_write (num L : Nat) (w r : List Nat)
    (hr : (putUvarint num).length ≤ r.length) :
    Encoder.varUint num ⟨L, some (w, r), none⟩
      = ⟨L, some (w ++ putUvarint num, r.drop (putUvarint num).length), none⟩ := by
  simp [Encoder.varUint, writeAdv_exact w r rfl hr]

theorem varInt_write (num : Int) (L : Nat) (w r : List Nat)
    (hr : (putVarint num).length ≤ r.length) :
    Encoder.varInt num ⟨L, some (w, r), none⟩
      = ⟨L, some (w ++ putVarint num, r.drop (putVarint num).length), none⟩ := by
  simp [Encoder.varInt, writeAdv_exact w r rfl hr]

theorem applyEncOp_count (op : Op) (rest : List Op) (h : validOp op rest = true) (L : Nat) :
    applyEncOp op ⟨L, none, none⟩ = ⟨L + (opBytes op).length, none, none⟩ := by
  cases op with
  | skip n => simp [applyEncOp, Encoder.skip, opBytes]
  | bool b => cases b <;> rfl
  | i8 n =>
    simp only [validOp, Bool.and_eq_true, decide_eq_true_eq] at h
    have hov : intOverflow n 1 = false := by simp [intOverflow]; omega
    simp [applyEncOp, Encoder.int8, int_count L hov, opBytes, beBytes]
  | i16 n =>
    simp only [validOp, Bool.and_eq_true, decide_eq_true_eq] at h
    have hov : intOverflow n 2 = false := by simp [intOverflow]; omega
    simp [applyEncOp, Encoder.int16, int_count L hov, opBytes, beBytes]
  | i32 n =>
    simp only [validOp, Bool.and_eq_true, decide_eq_true_eq] at h
    have hov : intOverflow n 4 = false := by simp [intOverflow]; omega
    simp [applyEncOp, Encoder.int32, int_count L hov, opBytes, beBytes]
  | i64 n =>
    have hov : intOverflow n 8 = false := rfl
    simp [applyEncOp, Encoder.int64, int_count L hov, opBytes, beBytes]
  | u8 n =>
    simp only [validOp, decide_eq_true_eq] at h
    have hov : uintOverflow n 1 = false := by simp [uintOverflow]; omega
    simp [applyEncOp, Encoder.uint8, uint_count L hov, opBytes, beBytes]
  | u16 n =>
    simp only [validOp, decide_eq_true_eq] at h
    have hov : uintOverflow n 2 = false := by simp [uintOverflow]; omega
    simp [applyEncOp, Encoder.uint16, uint_count L hov, opBytes, beBytes]
  | u32 n =>
    simp only [validOp, decide_eq_true_eq] at h
    have hov : uintOverflow n 4 = false := by simp [uintOverflow]; omega
    simp [applyEncOp, Encoder.uint32, uint_count L hov, opBytes, beBytes]
  | u64 n =>
    have hov : uintOverflow n 8 = false := rfl
    simp [applyEncOp, Encoder.uint64, uint_count L hov, opBytes, beBytes]
  | f32 bits =>
    simp only [validOp, decide_eq_true_eq] at h
    have hov : uintOverflow bits 4 = false := by simp [uintOverflow]; omega
    simp [applyEncOp, Encoder.float32, Encoder.uint32, uint_count L hov, opBytes, beBytes]
  | f64 bits =>
    have hov : uintOverflow bits 8 = false := rfl
    simp [applyEncOp, Encoder.float64, Encoder.uint64, uint_count L hov, opBytes, beBytes]
  | varI n => simp [applyEncOp, varInt_count, opBytes]
  | varU n => simp [applyEncOp, varUint_count, opBytes]
  | str s => simp [applyEncOp, string_count, opBytes]
  | bytes s => simp [applyEncOp, bytes_count, opBytes]
  | fixStr s lenSize =>
    simp only [validOp, Bool.and_eq_true, Bool.or_eq_true, beq_iff_eq,
      decide_eq_true_eq] at h
    have hsz : lenSize = 1 ∨ lenSize = 2 ∨ lenSize = 4 ∨ lenSize = 8 := by tauto
    have hov : uintOverflow s.length lenSize = false :=
      uintOverflow_eq_false hsz h.2
    simp [applyEncOp, Encoder.fixString, uint_count L hov, string_count, opBytes,
      beBytes_length s.length hsz]
    omega
  | fixBytes s lenSize =>
    simp only [validOp, Bool.and_eq_true, Bool.or_eq_true, beq_iff_eq,
      decide_eq_true_eq] at h
    have hsz : lenSize = 1 ∨ lenSize = 2 ∨ lenSize = 4 ∨ lenSize = 8 := by tauto
    have hov : uintOverflow s.length lenSize = false :=
      uintOverflow_eq_false hsz h.2
    simp [applyEncOp, Encoder.fixBytes, uint_count L hov, bytes_count, opBytes,
      beBytes_length s.length hsz]
    omega
  | varStr s =>
    simp [applyEncOp, Encoder.varString, varUint_count, string_count, opBytes]
    omega
  | varBytes s =>
    simp [applyEncOp, Encoder.varBytes, varUint_count, bytes_count, opBytes]
    omega
  | delStr s delim =>
    simp [applyEncOp, Encoder.delString, string_count, opBytes]
    omega
  | delBytes s delim =>
    simp [applyEncOp, Encoder.delBytes, bytes_count, opBytes]
    omega
  | tail s => simp [applyEncOp, tail_count, opBytes]

theorem applyEncOp_write (op : Op) (rest : List Op) (h : validOp op rest = true)
    (L : Nat) (w r : List Nat) (hr : (opBytes op).length ≤ r.length) :
    applyEncOp op ⟨L, some (w, r), none⟩
      = ⟨L, some (w ++ opBytes op, r.drop (opBytes op).length), none⟩ := by
  cases op with
  | skip n =>
    simp only [opBytes, List.length_replicate] at hr ⊢
    simp [applyEncOp, skip_write n L w r hr]
  | bool b =>
    simp only [opBytes, List.length_cons, List.length_nil] at hr ⊢
    cases b
    · simp [applyEncOp, Encoder.bool, Encoder.uint8,
        @uint_write 0 1 rfl (Or.inl rfl) L w r (by omega), beBytes]
    · simp [applyEncOp, Encoder.bool, Encoder.uint8,
        @uint_write 1 1 rfl (Or.inl rfl) L w r (by omega), beBytes]
  | i8 n =>
    simp only [validOp, Bool.and_eq_true, decide_eq_true_eq] at h
    have hov : intOverflow n 1 = false := by simp [intOverflow]; omega
    have hlen : (opBytes (Op.i8 n)).length = 1 := by simp [opBytes, beBytes]
    rw [hlen] at hr
    simp [applyEncOp, Encoder.int8, int_write hov (Or.inl rfl) L w r hr, opBytes, beBytes]
  | i16 n =>
    simp only [validOp, Bool.and_eq_true, decide_eq_true_eq] at h
    have hov : intOverflow n 2 = false := by simp [intOverflow]; omega
    have hlen : (opBytes (Op.i16 n)).length = 2 := by simp [opBytes, beBytes]
    rw [hlen] at hr
    simp [applyEncOp, Encoder.int16, int_write hov (Or.inr (Or.inl rfl)) L w r hr,
      opBytes, beBytes]
  | i32 n =>
    simp only [validOp, Bool.and_eq_true, decide_eq_true_eq] at h
    have hov : intOverflow n 4 = false := by simp [intOverflow]; omega
    have hlen : (opBytes (Op.i32 n)).length = 4 := by simp [opBytes, beBytes]
    rw [hlen] at hr
    simp [applyEncOp, Encoder.int32, int_write hov (Or.inr (Or.inr (Or.inl rfl))) L w r hr,
      opBytes, beBytes]
  | i64 n =>
    have hov : intOverflow n 8 = false := rfl
    have hlen : (opBytes (Op.i64 n)).length = 8 := by simp [opBytes, beBytes]
    rw [hlen] at hr
    simp [applyEncOp, Encoder.int64,
      int_write hov (Or.inr (Or.inr (Or.inr rfl))) L w r hr, opBytes, beBytes]
  | u8 n =>
    simp only [validOp, decide_eq_true_eq] at h
    have hov : uintOverflow n 1 = false := by simp [uintOverflow]; omega
    have hlen : (opBytes (Op.u8 n)).length = 1 := by simp [opBytes, beBytes]
    rw [hlen] at hr
    simp [applyEncOp, Encoder.uint8, uint_write hov (Or.inl rfl) L w r hr, opBytes, beBytes]
  | u16 n =>
    simp only [validOp, decide_eq_true_eq] at h
    have hov : uintOverflow n 2 = false := by simp [uintOverflow]; omega
    have hlen : (opBytes (Op.u16 n)).length = 2 := by simp [opBytes, beBytes]
    rw [hlen] at hr
    simp [applyEncOp, Encoder.uint16, uint_write hov (Or.inr (Or.inl rfl)) L w r hr,
      opBytes, beBytes]
  | u32 n =>
    simp only [validOp, decide_eq_true_eq] at h
    have hov : uintOverflow n 4 = false := by simp [uintOverflow]; omega
    have hlen : (opBytes (Op.u32 n)).length = 4 := by simp [opBytes, beBytes]
    rw [hlen] at hr
    simp [applyEncOp, Encoder.uint32, uint_write hov (Or.inr (Or.inr (Or.inl rfl))) L w r hr,
      opBytes, beBytes]
  | u64 n =>
    have hov : uintOverflow n 8 = false := rfl
    have hlen : (opBytes (Op.u64 n)).length = 8 := by simp [opBytes, beBytes]
    rw [hlen] at hr
    simp [applyEncOp, Encoder.uint64,
      uint_write hov (Or.inr (Or.inr (Or.inr rfl))) L w r hr, opBytes, beBytes]
  | f32 bits =>
    simp only [validOp, decide_eq_true_eq] at h
    have hov : uintOverflow bits 4 = false := by simp [uintOverflow]; omega
    have hlen : (opBytes (Op.f32 bits)).length = 4 := by simp [opBytes, beBytes]
    rw [hlen] at hr
    simp [applyEncOp, Encoder.float32, Encoder.uint32,
      uint_write hov (Or.inr (Or.inr (Or.inl rfl))) L w r hr, opBytes, beBytes]
  | f64 bits =>
    have hov : uintOverflow bits 8 = false := rfl
    have hlen : (opBytes (Op.f64 bits)).length = 8 := by simp [opBytes, beBytes]
    rw [hlen] at hr
    simp [applyEncOp, Encoder.float64, Encoder.uint64,
      uint_write hov (Or.inr (Or.inr (Or.inr rfl))) L w r hr, opBytes, beBytes]
  | varI n =>
    simp only [opBytes] at hr ⊢
    simp [applyEncOp, varInt_write n L w r hr]
  | varU n =>
    simp only [opBytes] at hr ⊢
    simp [applyEncOp, varUint_write n L w r hr]
  | str s =>
    simp only [opBytes] at hr ⊢
    simp [applyEncOp, string_write s L w r hr]
  | bytes s =>
    simp only [opBytes] at hr ⊢
    simp [applyEncOp, bytes_write s L w r hr]
  | fixStr s lenSize =>
    simp only [validOp, Bool.and_eq_true, Bool.or_eq_true, beq_iff_eq,
      decide_eq_true_eq] at h
    have hsz : lenSize = 1 ∨ lenSize = 2 ∨ lenSize = 4 ∨ lenSize = 8 := by tauto
    have hov : uintOverflow s.length lenSize = false := uintOverflow_eq_false hsz h.2
    have hbl : (beBytes lenSize s.length).length = lenSize := beBytes_length s.length hsz
    simp only [opBytes, List.length_append, hbl] at hr
    have hr1 : lenSize ≤ r.length := by omega
    have hr2 : s.length ≤ (r.drop lenSize).length := by simp [List.length_drop]; omega
    simp only [applyEncOp, Encoder.fixString, uint_write hov hsz L w r hr1,
      string_write s L _ _ hr2, opBytes]
    simp [List.append_assoc, List.drop_drop]
    rw [hbl, Nat.add_comm]
  | fixBytes s lenSize =>
    simp only [validOp, Bool.and_eq_true, Bool.or_eq_true, beq_iff_eq,
      decide_eq_true_eq] at h
    have hsz : lenSize = 1 ∨ lenSize = 2 ∨ lenSize = 4 ∨ lenSize = 8 := by tauto
    have hov : uintOverflow s.length lenSize = false := uintOverflow_eq_false hsz h.2
    have hbl : (beBytes lenSize s.length).length = lenSize := beBytes_length s.length hsz
    simp only [opBytes, List.length_append, hbl] at hr
    have hr1 : lenSize ≤ r.length := by omega
    have hr2 : s.length ≤ (r.drop lenSize).length := by simp [List.length_drop]; omega
    simp only [applyEncOp, Encoder.fixBytes, uint_write hov hsz L w r hr1,
      bytes_write s L _ _ hr2, opBytes]
    simp [List.append_assoc, List.drop_drop]
    rw [hbl, Nat.add_comm]
  | varStr s =>
    simp only [opBytes, List.length_append] at hr
    have hr1 : (putUvarint s.length).length ≤ r.length := by omega
    have hr2 : s.length ≤ (r.drop (putUvarint s.length).length).length := by
      simp [List.length_drop]; omega
    simp only [applyEncOp, Encoder.varString, varUint_write s.length L w r hr1,
      string_write s L _ _ hr2, opBytes]
    simp [List.append_assoc, List.drop_drop]
  | varBytes s =>
    simp only [opBytes, List.length_append] at hr
    have hr1 : (putUvarint s.length).length ≤ r.length := by omega
    have hr2 : s.length ≤ (r.drop (putUvarint s.length).length).length := by
      simp [List.length_drop]; omega
    simp only [applyEncOp, Encoder.varBytes, varUint_write s.length L w r hr1,
      bytes_write s L _ _ hr2, opBytes]
    simp [List.append_assoc, List.drop_drop]
  | delStr s delim =>
    simp only [opBytes, List.length_append] at hr
    have hr1 : s.length ≤ r.length := by omega
    have hr2 : delim.length ≤ (r.drop s.length).length := by
      simp [List.length_drop]; omega
    simp only [applyEncOp, Encoder.delString, string_write s L w r hr1,
      string_write delim L _ _ hr2, opBytes]
    simp [List.append_assoc, List.drop_drop]
  | delBytes s delim =>
    simp only [opBytes, List.length_append] at hr
    have hr1 : s.length ≤ r.length := by omega
    have hr2 : delim.length ≤ (r.drop s.length).length := by
      simp [List.length_drop]; omega
    simp only [applyEncOp, Encoder.delBytes, bytes_write s L w r hr1,
      bytes_write delim L _ _ hr2, opBytes]
    simp [List.append_assoc, List.drop_drop]
  | tail s =>
    simp only [opBytes] at hr ⊢
    simp [applyEncOp, tail_write s L w r hr]

theorem take_append_of_length {a b : List Nat} {n : Nat} (h : a.length = n) :
    (a ++ b).take n = a := by
  subst h; exact List.take_left a b

theorem drop_append_of_length {a b : List Nat} {n : Nat} (h : a.length = n) :
    (a ++ b).drop n = b := by
  subst h; exact List.drop_left a b

theorem sext_mod (size u : Nat) : sext size (u % 2 ^ (8 * size)) = sext size u := by
  unfold sext
  rw [Nat.mod_mod_of_dvd u dvd_rfl]

theorem putUvarint_length_pos (x : Nat) : 1 ≤ (putUvarint x).length := by
  rw [putUvarint]; split <;> simp

theorem dec_uint_enc {size num : Nat}
    (hs : size = 1 ∨ size = 2 ∨ size = 4 ∨ size = 8) (suffix : List Nat) :
    Decoder.uint size ⟨beBytes size num ++ suffix, none⟩
      = (num % 2 ^ (8 * size), ⟨suffix, none⟩) := by
  have hbl := beBytes_length num hs
  have hnl : ¬ ((beBytes size num ++ suffix).length < size) := by
    simp [List.length_append, hbl]
  have hbe := beUint_beBytes num suffix hs
  have hdr := drop_append_of_length (b := suffix) hbl
  rcases hs with h | h | h | h <;> subst h <;>
    simp only [Decoder.uint, Option.isSome_none, Bool.false_eq_true, if_false,
      if_neg hnl, hbe, hdr]

theorem dec_int_enc {size : Nat} (num : Nat)
    (hs : size = 1 ∨ size = 2 ∨ size = 4 ∨ size = 8) (suffix : List Nat) :
    Decoder.int size ⟨beBytes size num ++ suffix, none⟩
      = (sext size num, ⟨suffix, none⟩) := by
  have hbl := beBytes_length num hs
  have hnl : ¬ ((beBytes size num ++ suffix).length < size) := by
    simp [List.length_append, hbl]
  have hbe := beUint_beBytes num suffix hs
  have hdr := drop_append_of_length (b := suffix) hbl
  have hsx := sext_mod size num
  rcases hs with h | h | h | h <;> subst h <;>
    simp only [Decoder.int, Option.isSome_none, Bool.false_eq_true, if_false,
      if_neg hnl, hbe, hdr, hsx]

theorem dec_varUint_enc (num : Nat) (h : num < 2 ^ 64) (suffix : List Nat) :
    Decoder.varUint ⟨putUvarint num ++ suffix, none⟩ = (num, ⟨suffix, none⟩) := by
  have hu := uvarint_putUvarint num h suffix
  have hp := putUvarint_length_pos num
  simp only [Decoder.varUint, Option.isSome_none, Bool.false_eq_true, if_false, hu]
  have hgt : ¬ (((putUvarint num).length : Int) ≤ 0) := by
    push_neg
    exact_mod_cast hp
  simp only [if_neg hgt, Int.toNat_natCast, drop_append_of_length rfl]

theorem putVarint_length_pos (x : Int) : 1 ≤ (putVarint x).length :=
  putUvarint_length_pos (zigzag x)

theorem dec_varInt_enc (num : Int) (h1 : -(2 ^ 63) ≤ num) (h2 : num < 2 ^ 63)
    (suffix : List Nat) :
    Decoder.varInt ⟨putVarint num ++ suffix, none⟩ = (num, ⟨suffix, none⟩) := by
  have hv := varint_putVarint num h1 h2 suffix
  have hp := putVarint_length_pos num
  simp only [Decoder.varInt, Option.isSome_none, Bool.false_eq_true, if_false, hv]
  have hgt : ¬ (((putVarint num).length : Int) ≤ 0) := by
    push_neg
    exact_mod_cast hp
  simp only [if_neg hgt, Int.toNat_natCast, drop_append_of_length rfl]

theorem dec_string_enc (s suffix : List Nat) (clone : Bool) :
    Decoder.string s.length clone ⟨s ++ suffix, none⟩ = (s, ⟨suffix, none⟩) := by
  have hnl : ¬ ((s ++ suffix).length < s.length) := by simp [List.length_append]
  simp only [Decoder.string, Option.isSome_none, Bool.false_eq_true, if_false,
    if_neg hnl, take_append_of_length rfl, drop_append_of_length rfl]

theorem dec_bytes_enc (s suffix : List Nat) (clone : Bool) :
    Decoder.bytes s.length clone ⟨s ++ suffix, none⟩ = (s, ⟨suffix, none⟩) := by
  have hnl : ¬ ((s ++ suffix).length < s.length) := by simp [List.length_append]
  simp only [Decoder.bytes, Option.isSome_none, Bool.false_eq_true, if_false,
    if_neg hnl, take_append_of_length rfl, drop_append_of_length rfl]

theorem dec_delString_enc (s delim suffix : List Nat) (clone : Bool)
    (hne : delim ≠ [])
    (hidx : firstIdx delim (s ++ (delim ++ suffix)) = some s.length) :
    Decoder.delString delim clone ⟨s ++ (delim ++ suffix), none⟩
      = (s, ⟨suffix, none⟩) := by
  have hdl : ¬ (delim.length = 0) := by
    simpa [List.length_eq_zero] using hne
  have hdrop : (s ++ (delim ++ suffix)).drop (s.length + delim.length) = suffix := by
    rw [← List.append_assoc]
    exact drop_append_of_length (by simp [List.length_append])
  simp only [Decoder.delString, Option.isSome_none, Bool.false_eq_true, if_false,
    if_neg hdl, hidx, take_append_of_length rfl, hdrop]

theorem dec_delBytes_enc (s delim suffix : List Nat) (clone : Bool)
    (hne : delim ≠ [])
    (hidx : firstIdx delim (s ++ (delim ++ suffix)) = some s.length) :
    Decoder.delBytes delim clone ⟨s ++ (delim ++ suffix), none⟩
      = (s, ⟨suffix, none⟩) := by
  have hdl : ¬ (delim.length = 0) := by
    simpa [List.length_eq_zero] using hne
  have hdrop : (s ++ (delim ++ suffix)).drop (s.length + delim.length) = suffix := by
    rw [← List.append_assoc]
    exact drop_append_of_length (by simp [List.length_append])
  simp only [Decoder.delBytes, Option.isSome_none, Bool.false_eq_true, if_false,
    if_neg hdl, hidx, take_append_of_length rfl, hdrop]

theorem dec_tail_enc (s : List Nat) (clone : Bool) :
    Decoder.tail clone ⟨s, none⟩ = (s, ⟨[], none⟩) := by
  simp only [Decoder.tail, Decoder.bytes, Option.isSome_none, Bool.false_eq_true,
    if_false, lt_irrefl, List.take_length, List.drop_length]

theorem dec_uint_one (v : Nat) (X : List Nat) :
    Decoder.uint 1 ⟨v :: X, none⟩ = (v, ⟨X, none⟩) := by
  have hl : ¬ ((v :: X).length < 1) := by simp
  simp [Decoder.uint, hl, beUint]

theorem applyDecOp_dec (op : Op) (rest : List Op) (h : validOp op rest = true) :
    applyDecOp op ⟨opBytes op ++ encB rest, none⟩ = (opValues op, ⟨encB rest, none⟩) := by
  cases op with
  | skip n =>
    have hnl : ¬ ((List.replicate n (0:Nat) ++ encB rest).length < n) := by
      simp [List.length_append]
    simp [applyDecOp, Decoder.skip, hnl, opBytes, opValues,
      drop_append_of_length (List.length_replicate n 0)]
  | bool b =>
    cases b <;>
      simp [applyDecOp, Decoder.bool, Decoder.uint8, opBytes, opValues, dec_uint_one]
  | i8 n =>
    simp only [validOp, Bool.and_eq_true, decide_eq_true_eq] at h
    have hst : sext 1 (toU64 n) = n :=
      sext_toU64 n (Or.inl rfl) (by norm_num; omega) (by norm_num; omega)
    simp [applyDecOp, Decoder.int8, opBytes, opValues,
      dec_int_enc (toU64 n) (Or.inl rfl), hst]
  | i16 n =>
    simp only [validOp, Bool.and_eq_true, decide_eq_true_eq] at h
    have hst : sext 2 (toU64 n) = n :=
      sext_toU64 n (Or.inr (Or.inl rfl)) (by norm_num; omega) (by norm_num; omega)
    simp [applyDecOp, Decoder.int16, opBytes, opValues,
      dec_int_enc (toU64 n) (Or.inr (Or.inl rfl)), hst]
  | i32 n =>
    simp only [validOp, Bool.and_eq_true, decide_eq_true_eq] at h
    have hst : sext 4 (toU64 n) = n :=
      sext_toU64 n (Or.inr (Or.inr (Or.inl rfl))) (by norm_num; omega) (by norm_num; omega)
    simp [applyDecOp, Decoder.int32, opBytes, opValues,
      dec_int_enc (toU64 n) (Or.inr (Or.inr (Or.inl rfl))), hst]
  | i64 n =>
    simp only [validOp, Bool.and_eq_true, decide_eq_true_eq] at h
    have hst : sext 8 (toU64 n) = n :=
      sext_toU64 n (Or.inr (Or.inr (Or.inr rfl))) (by norm_num; omega) (by norm_num; omega)
    simp [applyDecOp, Decoder.int64, opBytes, opValues,
      dec_int_enc (toU64 n) (Or.inr (Or.inr (Or.inr rfl))), hst]
  | u8 n =>
    simp only [validOp, decide_eq_true_eq] at h
    simp [applyDecOp, Decoder.uint8, opBytes, opValues,
      dec_uint_enc (Or.inl rfl) (encB rest), Nat.mod_eq_of_lt h]
    omega
  | u16 n =>
    simp only [validOp, decide_eq_true_eq] at h
    simp [applyDecOp, Decoder.uint16, opBytes, opValues,
      dec_uint_enc (Or.inr (Or.inl rfl)) (encB rest), Nat.mod_eq_of_lt h]
    omega
  | u32 n =>
    simp only [validOp, decide_eq_true_eq] at h
    simp [applyDecOp, Decoder.uint32, opBytes, opValues,
      dec_uint_enc (Or.inr (Or.inr (Or.inl rfl))) (encB rest), Nat.mod_eq_of_lt h]
    omega
  | u64 n =>
    simp only [validOp, decide_eq_true_eq] at h
    simp [applyDecOp, Decoder.uint64, opBytes, opValues,
      dec_uint_enc (Or.inr (Or.inr (Or.inr rfl))) (encB rest), Nat.mod_eq_of_lt h]
    omega
  | f32 bits =>
    simp only [validOp, decide_eq_true_eq] at h
    simp [applyDecOp, Decoder.float32, Decoder.uint32, opBytes, opValues,
      dec_uint_enc (Or.inr (Or.inr (Or.inl rfl))) (encB rest), Nat.mod_eq_of_lt h]
    omega
  | f64 bits =>
    simp only [validOp, decide_eq_true_eq] at h
    simp [applyDecOp, Decoder.float64, Decoder.uint64, opBytes, opValues,
      dec_uint_enc (Or.inr (Or.inr (Or.inr rfl))) (encB rest), Nat.mod_eq_of_lt h]
    omega
  | varI n =>
    simp only [validOp, Bool.and_eq_true, decide_eq_true_eq] at h
    simp [applyDecOp, opBytes, opValues, dec_varInt_enc n h.1 h.2 (encB rest)]
  | varU n =>
    simp only [validOp, decide_eq_true_eq] at h
    simp [applyDecOp, opBytes, opValues, dec_varUint_enc n h (encB rest)]
  | str s =>
    simp [applyDecOp, opBytes, opValues, dec_string_enc s (encB rest)]
  | bytes s =>
    simp [applyDecOp, opBytes, opValues, dec_bytes_enc s (encB rest)]
  | fixStr s lenSize =>
    simp only [validOp, Bool.and_eq_true, Bool.or_eq_true, beq_iff_eq,
      decide_eq_true_eq] at h
    have hsz : lenSize = 1 ∨ lenSize = 2 ∨ lenSize = 4 ∨ lenSize = 8 := by tauto
    simp [applyDecOp, Decoder.fixString, opBytes, opValues, List.append_assoc,
      dec_uint_enc hsz, Nat.mod_eq_of_lt h.2, dec_string_enc s (encB rest)]
  | fixBytes s lenSize =>
    simp only [validOp, Bool.and_eq_true, Bool.or_eq_true, beq_iff_eq,
      decide_eq_true_eq] at h
    have hsz : lenSize = 1 ∨ lenSize = 2 ∨ lenSize = 4 ∨ lenSize = 8 := by tauto
    simp [applyDecOp, Decoder.fixBytes, opBytes, opValues, List.append_assoc,
      dec_uint_enc hsz, Nat.mod_eq_of_lt h.2, dec_bytes_enc s (encB rest)]
  | varStr s =>
    simp only [validOp, decide_eq_true_eq] at h
    simp [applyDecOp, Decoder.varString, opBytes, opValues, List.append_assoc,
      dec_varUint_enc s.length h, dec_string_enc s (encB rest)]
  | varBytes s =>
    simp only [validOp, decide_eq_true_eq] at h
    simp [applyDecOp, Decoder.varBytes, opBytes, opValues, List.append_assoc,
      dec_varUint_enc s.length h, dec_bytes_enc s (encB rest)]
  | delStr s delim =>
    simp only [validOp, Bool.and_eq_true, beq_iff_eq, decide_eq_true_eq] at h
    have hidx : firstIdx delim (s ++ (delim ++ encB rest)) = some s.length := by
      rw [← List.append_assoc]
      exact h.2
    simp [applyDecOp, opBytes, opValues, List.append_assoc,
      dec_delString_enc s delim (encB rest) true h.1 hidx]
  | delBytes s delim =>
    simp only [validOp, Bool.and_eq_true, beq_iff_eq, decide_eq_true_eq] at h
    have hidx : firstIdx delim (s ++ (delim ++ encB rest)) = some s.length := by
      rw [← List.append_assoc]
      exact h.2
    simp [applyDecOp, opBytes, opValues, List.append_assoc,
      dec_delBytes_enc s delim (encB rest) true h.1 hidx]
  | tail s =>
    simp only [validOp, List.isEmpty_iff] at h
    subst h
    simp [applyDecOp, opBytes, opValues, encB, dec_tail_enc]

theorem encB_cons (op : Op) (rest : List Op) :
    encB (op :: rest) = opBytes op ++ encB rest := by
  simp [encB]

theorem opsValues_cons (op : Op) (rest : List Op) :
    opsValues (op :: rest) = opValues op ++ opsValues rest := by
  simp [opsValues]

theorem encodeRun_cons (op : Op) (rest : List Op) (e : Encoder) :
    encodeRun (op :: rest) e = encodeRun rest (applyEncOp op e) := rfl

theorem decodeRun_cons (op : Op) (rest : List Op) (d : Decoder) :
    decodeRun (op :: rest) d =
      ((applyDecOp op d).1 ++ (decodeRun rest (applyDecOp op d).2).1,
        (decodeRun rest (applyDecOp op d).2).2) := rfl

theorem encodeRun_count (ops : List Op) (h : validOps ops = true) (L : Nat) :
    encodeRun ops ⟨L, none, none⟩ = ⟨L + (encB ops).length, none, none⟩ := by
  induction ops generalizing L with
  | nil => simp [encodeRun, encB]
  | cons op rest ih =>
    simp only [validOps, Bool.and_eq_true] at h
    rw [encodeRun_cons, applyEncOp_count op rest h.1 L, ih h.2, encB_cons]
    simp [List.length_append]
    omega

theorem encodeRun_write (ops : List Op) (h : validOps ops = true) (L : Nat)
    (w r : List Nat) (hr : (encB ops).length ≤ r.length) :
    encodeRun ops ⟨L, some (w, r), none⟩
      = ⟨L, some (w ++ encB ops, r.drop (encB ops).length), none⟩ := by
  induction ops generalizing w r with
  | nil => simp [encodeRun, encB]
  | cons op rest ih =>
    simp only [validOps, Bool.and_eq_true] at h
    rw [encB_cons, List.length_append] at hr
    have hr1 : (opBytes op).length ≤ r.length := by omega
    have hr2 : (encB rest).length ≤ (r.drop (opBytes op).length).length := by
      simp [List.length_drop]
      omega
    rw [encodeRun_cons, applyEncOp_write op rest h.1 L w r hr1, ih h.2 _ _ hr2,
      encB_cons]
    simp [List.append_assoc, List.drop_drop, List.length_append]

theorem decodeRun_enc (ops : List Op) (h : validOps ops = true) :
    decodeRun ops ⟨encB ops, none⟩ = (opsValues ops, ⟨[], none⟩) := by
  induction ops with
  | nil => simp [decodeRun, encB, opsValues]
  | cons op rest ih =>
    simp only [validOps, Bool.and_eq_true] at h
    rw [decodeRun_cons, encB_cons, applyDecOp_dec op rest h.1]
    simp only [ih h.2, opsValues_cons]

/-- C1: for every sequence of in-range primitive encode operations, `Encode`
(two passes of the same callback, then the exactly-sized buffer) produces
`encB ops`, and the symmetric sequence of reads returns exactly the original
values, consumes the whole buffer and reports no error (so `Decode` returns
nil as well). -/
theorem c1_roundTrip (ops : List Op) (h : validOps ops = true) :
    encodeF (encodeRun ops) = some (encB ops) ∧
    decodeRun ops ⟨encB ops, none⟩ = (opsValues ops, ⟨[], none⟩) ∧
    decodeD (encB ops) (fun d => (none, (decodeRun ops d).2)) = none := by
  have hc := encodeRun_count ops h 0
  have hw := encodeRun_write ops h 0 [] (List.replicate (encB ops).length 0)
    (by simp)
  have hdec := decodeRun_enc ops h
  refine ⟨?_, hdec, ?_⟩
  · unfold encodeF
    simp only [countInit, writeInit, hc, Nat.zero_add, hw]
    simp
  · unfold decodeD
    simp only [hdec]
    simp

/-- Witness for C1 at a concrete sequence holding the extremes of every
width, NaN and Inf bit patterns, varint extremes and all byte-field forms. -/
theorem c1_roundTrip_witness :
    validOps c1ops = true ∧
    (encodeF (encodeRun c1ops) = some (encB c1ops) ∧
     decodeRun c1ops ⟨encB c1ops, none⟩ = (opsValues c1ops, ⟨[], none⟩) ∧
     decodeD (encB c1ops) (fun d => (none, (decodeRun c1ops d).2)) = none) :=
  ⟨by decide, c1_roundTrip c1ops (by decide)⟩

theorem encErr_noop (op : Op) (e : Encoder) (h : e.err.isSome) :
    applyEncOp op e = e := by
  cases op with
  | bool b =>
    cases b <;> simp [applyEncOp, Encoder.bool, Encoder.uint8, Encoder.uint, h]
  | _ =>
    simp [applyEncOp, Encoder.skip, Encoder.int8, Encoder.int16, Encoder.int32,
      Encoder.int64, Encoder.int, Encoder.uint8, Encoder.uint16, Encoder.uint32,
      Encoder.uint64, Encoder.uint, Encoder.float32, Encoder.float64,
      Encoder.varInt, Encoder.varUint, Encoder.string, Encoder.bytes,
      Encoder.fixString, Encoder.fixBytes, Encoder.varString, Encoder.varBytes,
      Encoder.delString, Encoder.delBytes, Encoder.tail, h]

theorem decErr_noop (op : Op) (d : Decoder) (h : d.err.isSome) :
    applyDecOp op d = (zeroVals op, d) := by
  cases op <;>
    simp [applyDecOp, zeroVals, Decoder.skip, Decoder.bool, Decoder.int8,
      Decoder.int16, Decoder.int32, Decoder.int64, Decoder.int, Decoder.uint8,
      Decoder.uint16, Decoder.uint32, Decoder.uint64, Decoder.uint,
      Decoder.float32, Decoder.float64, Decoder.varInt, Decoder.varUint,
      Decoder.string, Decoder.bytes, Decoder.fixString, Decoder.fixBytes,
      Decoder.varString, Decoder.varBytes, Decoder.delString, Decoder.delBytes,
      Decoder.tail, sext, toU64, h]

theorem beBytes_length_le (size num : Nat) : (beBytes size num).length ≤ size := by
  unfold beBytes
  split <;> simp

theorem writeAdv_sync {bs : List Nat} {adv : Nat} (w r : List Nat)
    (hb : bs.length ≤ adv) (hr : adv ≤ r.length) :
    (writeAdv bs adv w r).2 = r.drop adv ∧
    (writeAdv bs adv w r).1.length = w.length + adv := by
  unfold writeAdv
  constructor
  · show (bs ++ r.drop bs.length).drop adv = r.drop adv
    rw [show adv = bs.length + (adv - bs.length) by omega, List.drop_append,
      List.drop_drop]
  · show (w ++ (bs ++ r.drop bs.length).take adv).length = w.length + adv
    simp only [List.length_append, List.length_take, List.length_drop]
    omega

theorem uint_write_any {num size : Nat} (h : uintOverflow num size = false)
    (L : Nat) (w r : List Nat) (hr : size ≤ r.length) :
    ∃ w2, Encoder.uint num size ⟨L, some (w, r), none⟩
        = ⟨L, some (w2, r.drop size), none⟩ ∧ w2.length = w.length + size := by
  have hs := @writeAdv_sync (beBytes size num) size w r
    (beBytes_length_le size num) hr
  refine ⟨(writeAdv (beBytes size num) size w r).1, ?_, hs.2⟩
  simp only [Encoder.uint, Option.isSome_none, Bool.false_eq_true, if_false, h]
  rw [show writeAdv (beBytes size num) size w r
      = ((writeAdv (beBytes size num) size w r).1,
         (writeAdv (beBytes size num) size w r).2) from rfl, hs.1]

theorem encodeRun_noop (ops : List Op) (e : Encoder) (h : e.err.isSome) :
    encodeRun ops e = e := by
  induction ops with
  | nil => rfl
  | cons op rest ih => rw [encodeRun_cons, encErr_noop op e h, ih]

theorem decodeRun_noop_err (ops : List Op) (d : Decoder) (h : d.err.isSome) :
    (decodeRun ops d).2 = d := by
  induction ops with
  | nil => rfl
  | cons op rest ih => rw [decodeRun_cons, decErr_noop op d h]; exact ih

theorem applyEncOp_sync (op : Op) (L L' : Nat) (w r : List Nat)
    (h : (applyEncOp op ⟨L, none, none⟩).err = none) :
    ∃ k, applyEncOp op ⟨L, none, none⟩ = ⟨L + k, none, none⟩ ∧
      (k ≤ r.length →
        ∃ w2, applyEncOp op ⟨L', some (w, r), none⟩
            = ⟨L', some (w2, r.drop k), none⟩ ∧ w2.length = w.length + k) := by
  cases op with
  | skip n =>
    refine ⟨n, by simp [applyEncOp, skip_count], fun hk => ?_⟩
    refine ⟨w ++ List.replicate n 0, by simp [applyEncOp, skip_write n L' w r hk], by simp⟩
  | bool b =>
    refine ⟨1, ?_, fun hk => ?_⟩
    · cases b <;> rfl
    · cases b
      · exact ⟨w ++ beBytes 1 0,
          by simp [applyEncOp, Encoder.bool, Encoder.uint8,
            @uint_write 0 1 rfl (Or.inl rfl) L' w r hk],
          by simp [beBytes]⟩
      · exact ⟨w ++ beBytes 1 1,
          by simp [applyEncOp, Encoder.bool, Encoder.uint8,
            @uint_write 1 1 rfl (Or.inl rfl) L' w r hk],
          by simp [beBytes]⟩
  | i8 n =>
    cases hov : intOverflow n 1 with
    | true => simp [applyEncOp, Encoder.int8, Encoder.int, hov] at h
    | false =>
      refine ⟨1, by simp [applyEncOp, Encoder.int8, int_count L hov], fun hk => ?_⟩
      exact ⟨w ++ beBytes 1 (toU64 n),
        by simp [applyEncOp, Encoder.int8, int_write hov (Or.inl rfl) L' w r hk],
        by simp [beBytes]⟩
  | i16 n =>
    cases hov : intOverflow n 2 with
    | true => simp [applyEncOp, Encoder.int16, Encoder.int, hov] at h
    | false =>
      refine ⟨2, by simp [applyEncOp, Encoder.int16, int_count L hov], fun hk => ?_⟩
      exact ⟨w ++ beBytes 2 (toU64 n),
        by simp [applyEncOp, Encoder.int16,
          int_write hov (Or.inr (Or.inl rfl)) L' w r hk],
        by simp [beBytes]⟩
  | i32 n =>
    cases hov : intOverflow n 4 with
    | true => simp [applyEncOp, Encoder.int32, Encoder.int, hov] at h
    | false =>
      refine ⟨4, by simp [applyEncOp, Encoder.int32, int_count L hov], fun hk => ?_⟩
      exact ⟨w ++ beBytes 4 (toU64 n),
        by simp [applyEncOp, Encoder.int32,
          int_write hov (Or.inr (Or.inr (Or.inl rfl))) L' w r hk],
        by simp [beBytes]⟩
  | i64 n =>
    refine ⟨8, by simp [applyEncOp, Encoder.int64, int_count L (show intOverflow n 8 = false from rfl)], fun hk => ?_⟩
    exact ⟨w ++ beBytes 8 (toU64 n),
      by simp [applyEncOp, Encoder.int64,
        int_write (show intOverflow n 8 = false from rfl) (Or.inr (Or.inr (Or.inr rfl))) L' w r hk],
      by simp [beBytes]⟩
  | u8 n =>
    cases hov : uintOverflow n 1 with
    | true => simp [applyEncOp, Encoder.uint8, Encoder.uint, hov] at h
    | false =>
      refine ⟨1, by simp [applyEncOp, Encoder.uint8, uint_count L hov], fun hk => ?_⟩
      exact ⟨w ++ beBytes 1 n,
        by simp [applyEncOp, Encoder.uint8, uint_write hov (Or.inl rfl) L' w r hk],
        by simp [beBytes]⟩
  | u16 n =>
    cases hov : uintOverflow n 2 with
    | true => simp [applyEncOp, Encoder.uint16, Encoder.uint, hov] at h
    | false =>
      refine ⟨2, by simp [applyEncOp, Encoder.uint16, uint_count L hov], fun hk => ?_⟩
      exact ⟨w ++ beBytes 2 n,
        by simp [applyEncOp, Encoder.uint16,
          uint_write hov (Or.inr (Or.inl rfl)) L' w r hk],
        by simp [beBytes]⟩
  | u32 n =>
    cases hov : uintOverflow n 4 with
    | true => simp [applyEncOp, Encoder.uint32, Encoder.uint, hov] at h
    | false =>
      refine ⟨4, by simp [applyEncOp, Encoder.uint32, uint_count L hov], fun hk => ?_⟩
      exact ⟨w ++ beBytes 4 n,
        by simp [applyEncOp, Encoder.uint32,
          uint_write hov (Or.inr (Or.inr (Or.inl rfl))) L' w r hk],
        by simp [beBytes]⟩
  | u64 n =>
    refine ⟨8,
      by simp [applyEncOp, Encoder.uint64,
        uint_count L (show uintOverflow n 8 = false from rfl)],
      fun hk => ?_⟩
    exact ⟨w ++ beBytes 8 n,
      by simp [applyEncOp, Encoder.uint64,
        uint_write (show uintOverflow n 8 = false from rfl)
          (Or.inr (Or.inr (Or.inr rfl))) L' w r hk],
      by simp [beBytes]⟩
  | f32 bits =>
    cases hov : uintOverflow bits 4 with
    | true => simp [applyEncOp, Encoder.float32, Encoder.uint32, Encoder.uint, hov] at h
    | false =>
      refine ⟨4,
        by simp [applyEncOp, Encoder.float32, Encoder.uint32, uint_count L hov],
        fun hk => ?_⟩
      exact ⟨w ++ beBytes 4 bits,
        by simp [applyEncOp, Encoder.float32, Encoder.uint32,
          uint_write hov (Or.inr (Or.inr (Or.inl rfl))) L' w r hk],
        by simp [beBytes]⟩
  | f64 bits =>
    refine ⟨8,
      by simp [applyEncOp, Encoder.float64, Encoder.uint64,
        uint_count L (show uintOverflow bits 8 = false from rfl)],
      fun hk => ?_⟩
    exact ⟨w ++ beBytes 8 bits,
      by simp [applyEncOp, Encoder.float64, Encoder.uint64,
        uint_write (show uintOverflow bits 8 = false from rfl)
          (Or.inr (Or.inr (Or.inr rfl))) L' w r hk],
      by simp [beBytes]⟩
  | varI n =>
    refine ⟨(putVarint n).length, by simp [applyEncOp, varInt_count], fun hk => ?_⟩
    exact ⟨w ++ putVarint n, by simp [applyEncOp, varInt_write n L' w r hk], by simp⟩
  | varU n =>
    refine ⟨(putUvarint n).length, by simp [applyEncOp, varUint_count], fun hk => ?_⟩
    exact ⟨w ++ putUvarint n, by simp [applyEncOp, varUint_write n L' w r hk], by simp⟩
  | str s =>
    refine ⟨s.length, by simp [applyEncOp, string_count], fun hk => ?_⟩
    exact ⟨w ++ s, by simp [applyEncOp, string_write s L' w r hk], by simp⟩
  | bytes s =>
    refine ⟨s.length, by simp [applyEncOp, bytes_count], fun hk => ?_⟩
    exact ⟨w ++ s, by simp [applyEncOp, bytes_write s L' w r hk], by simp⟩
  | fixStr s lenSize =>
    cases hov : uintOverflow s.length lenSize with
    | true =>
      simp [applyEncOp, Encoder.fixString, Encoder.uint, Encoder.string, hov] at h
    | false =>
      refine ⟨lenSize + s.length,
        by simp [applyEncOp, Encoder.fixString, uint_count L hov, string_count]; omega,
        fun hk => ?_⟩
      obtain ⟨w1, hw1, hl1⟩ := uint_write_any hov L' w r (by omega)
      have hk2 : s.length ≤ (r.drop lenSize).length := by
        simp [List.length_drop]; omega
      refine ⟨w1 ++ s, ?_, by simp [hl1]; omega⟩
      simp only [applyEncOp, Encoder.fixString, hw1, string_write s L' _ _ hk2,
        List.drop_drop]
  | fixBytes s lenSize =>
    cases hov : uintOverflow s.length lenSize with
    | true =>
      simp [applyEncOp, Encoder.fixBytes, Encoder.uint, Encoder.bytes, hov] at h
    | false =>
      refine ⟨lenSize + s.length,
        by simp [applyEncOp, Encoder.fixBytes, uint_count L hov, bytes_count]; omega,
        fun hk => ?_⟩
      obtain ⟨w1, hw1, hl1⟩ := uint_write_any hov L' w r (by omega)
      have hk2 : s.length ≤ (r.drop lenSize).length := by
        simp [List.length_drop]; omega
      refine ⟨w1 ++ s, ?_, by simp [hl1]; omega⟩
      simp only [applyEncOp, Encoder.fixBytes, hw1, bytes_write s L' _ _ hk2,
        List.drop_drop]
  | varStr s =>
    refine ⟨(putUvarint s.length).length + s.length,
      by simp [applyEncOp, Encoder.varString, varUint_count, string_count]; omega,
      fun hk => ?_⟩
    have hk1 : (putUvarint s.length).length ≤ r.length := by omega
    have hk2 : s.length ≤ (r.drop (putUvarint s.length).length).length := by
      simp [List.length_drop]; omega
    refine ⟨w ++ putUvarint s.length ++ s, ?_, by simp⟩
    simp only [applyEncOp, Encoder.varString, varUint_write s.length L' w r hk1,
      string_write s L' _ _ hk2, List.drop_drop]
  | varBytes s =>
    refine ⟨(putUvarint s.length).length + s.length,
      by simp [applyEncOp, Encoder.varBytes, varUint_count, bytes_count]; omega,
      fun hk => ?_⟩
    have hk1 : (putUvarint s.length).length ≤ r.length := by omega
    have hk2 : s.length ≤ (r.drop (putUvarint s.length).length).length := by
      simp [List.length_drop]; omega
    refine ⟨w ++ putUvarint s.length ++ s, ?_, by simp⟩
    simp only [applyEncOp, Encoder.varBytes, varUint_write s.length L' w r hk1,
      bytes_write s L' _ _ hk2, List.drop_drop]
  | delStr s delim =>
    refine ⟨s.length + delim.length,
      by simp [applyEncOp, Encoder.delString, string_count]; omega,
      fun hk => ?_⟩
    have hk1 : s.length ≤ r.length := by omega
    have hk2 : delim.length ≤ (r.drop s.length).length := by
      simp [List.length_drop]; omega
    refine ⟨w ++ s ++ delim, ?_, by simp⟩
    simp only [applyEncOp, Encoder.delString, string_write s L' w r hk1,
      string_write delim L' _ _ hk2, List.drop_drop]
  | delBytes s delim =>
    refine ⟨s.length + delim.length,
      by simp [applyEncOp, Encoder.delBytes, bytes_count]; omega,
      fun hk => ?_⟩
    have hk1 : s.length ≤ r.length := by omega
    have hk2 : delim.length ≤ (r.drop s.length).length := by
      simp [List.length_drop]; omega
    refine ⟨w ++ s ++ delim, ?_, by simp⟩
    simp only [applyEncOp, Encoder.delBytes, bytes_write s L' w r hk1,
      bytes_write delim L' _ _ hk2, List.drop_drop]
  | tail s =>
    refine ⟨s.length, by simp [applyEncOp, tail_count], fun hk => ?_⟩
    exact ⟨w ++ s, by simp [applyEncOp, tail_write s L' w r hk], by simp⟩

theorem encodeRun_sync (ops : List Op) (L : Nat)
    (h : (encodeRun ops ⟨L, none, none⟩).err = none) :
    ∃ k, encodeRun ops ⟨L, none, none⟩ = ⟨L + k, none, none⟩ ∧
      ∀ (L' : Nat) (w r : List Nat), k ≤ r.length →
        ∃ w2, encodeRun ops ⟨L', some (w, r), none⟩
            = ⟨L', some (w2, r.drop k), none⟩ ∧ w2.length = w.length + k := by
  induction ops generalizing L with
  | nil =>
    exact ⟨0, by simp [encodeRun], fun L' w r hk => ⟨w, by simp [encodeRun], by simp⟩⟩
  | cons op rest ih =>
    have hop : (applyEncOp op ⟨L, none, none⟩).err = none := by
      by_contra hc
      have hs : (applyEncOp op ⟨L, none, none⟩).err.isSome :=
        Option.isSome_iff_ne_none.mpr hc
      rw [encodeRun_cons, encodeRun_noop rest _ hs] at h
      exact hc h
    obtain ⟨k1, hc1, _⟩ := applyEncOp_sync op L 0 [] [] hop
    have hrest : (encodeRun rest ⟨L + k1, none, none⟩).err = none := by
      rw [encodeRun_cons, hc1] at h
      exact h
    obtain ⟨k2, hc2, hwrite2⟩ := ih (L + k1) hrest
    refine ⟨k1 + k2, ?_, ?_⟩
    · rw [encodeRun_cons, hc1, hc2, Nat.add_assoc]
    · intro L' w r hk
      obtain ⟨k1b, hc1b, hw1b⟩ := applyEncOp_sync op L L' w r hop
      have hkeq : k1b = k1 := by
        rw [hc1] at hc1b
        have := congrArg Encoder.len hc1b
        simp at this
        omega
      subst hkeq
      obtain ⟨w2, hwr1, hl1⟩ := hw1b (by omega)
      obtain ⟨w3, hwr2, hl2⟩ := hwrite2 L' w2 (r.drop k1b)
        (by simp [List.length_drop]; omega)
      refine ⟨w3, ?_, by omega⟩
      rw [encodeRun_cons, hwr1, hwr2, List.drop_drop, Nat.add_comm]

/-- C2: for every callback (operation sequence) whose counting pass finishes
without a sticky error, the writing pass over a destination of exactly the
counted length writes exactly that many bytes and leaves nothing over, so
`Encode` returns a slice of exactly the counted length; and `EncodeInto`
returns `ErrBufferTooShort`, leaving the destination untouched and writing
nothing, whenever the destination is shorter than the counted length. -/
theorem c2_measuredLength (ops : List Op) (dst : List Nat)
    (h : (encodeRun ops countInit).err = none) :
    ((encodeF (encodeRun ops)).map List.length
        = some (encodeRun ops countInit).len) ∧
    ((encodeRun ops (writeInit (List.replicate (encodeRun ops countInit).len 0))).buf.map
        (fun p => (p.1.length, p.2.length))
      = some ((encodeRun ops countInit).len, 0)) ∧
    (dst.length < (encodeRun ops countInit).len →
      encodeIntoF dst (encodeRun ops) = (dst, 0, some .bufferTooShort)) := by
  obtain ⟨k, hc, hw⟩ := encodeRun_sync ops 0 h
  have hlen : (encodeRun ops countInit).len = k := by
    simp [countInit, hc]
  obtain ⟨w2, hw2, hl2⟩ := hw 0 [] (List.replicate k 0) (by simp)
  simp only [List.length_nil, Nat.zero_add] at hl2
  refine ⟨?_, ?_, ?_⟩
  · unfold encodeF
    simp [countInit, writeInit, hc, hlen, hw2]
    omega
  · simp [countInit, writeInit, hc, hlen, hw2]
    omega
  · intro hshort
    rw [hlen] at hshort
    unfold encodeIntoF
    simp [countInit, hc, hlen]
    omega

/-- Witness for C2: a three-field callback measuring 2 + 2 + 2 = 6 bytes
against a 5-byte destination. -/
theorem c2_measuredLength_witness :
    (encodeRun c2ops countInit).err = none ∧
    (((encodeF (encodeRun c2ops)).map List.length
        = some (encodeRun c2ops countInit).len) ∧
     ((encodeRun c2ops (writeInit
          (List.replicate (encodeRun c2ops countInit).len 0))).buf.map
        (fun p => (p.1.length, p.2.length))
      = some ((encodeRun c2ops countInit).len, 0)) ∧
     ([0, 0, 0, 0, 0].length < (encodeRun c2ops countInit).len →
      encodeIntoF [0, 0, 0, 0, 0] (encodeRun c2ops)
        = ([0, 0, 0, 0, 0], 0, some .bufferTooShort))) :=
  ⟨by decide, c2_measuredLength c2ops [0, 0, 0, 0, 0] (by decide)⟩

/-- C7: once the sticky error slot of an Encoder or Decoder instance is set,
every subsequent primitive operation is a no-op: the encoder state is
returned unchanged (cursor not advanced, counting length not increased,
error untouched), and the decoder returns the zero/empty value of the
operation with its state unchanged. -/
theorem c7_stickyError (e : Encoder) (d : Decoder) (op : Op)
    (he : e.err.isSome) (hd : d.err.isSome) :
    applyEncOp op e = e ∧ applyDecOp op d = (zeroVals op, d) :=
  ⟨encErr_noop op e he, decErr_noop op d hd⟩

/-- Witness for C7: an errored counting encoder and an errored decoder with
remaining input are untouched by a subsequent `Uint8`. -/
theorem c7_stickyError_witness :
    ((⟨5, none, some Err.bufferTooShort⟩ : Encoder).err.isSome
      ∧ (⟨[7, 7], some Err.invalidSize⟩ : Decoder).err.isSome)
    ∧ (applyEncOp (.u8 3) ⟨5, none, some Err.bufferTooShort⟩
          = ⟨5, none, some Err.bufferTooShort⟩
      ∧ applyDecOp (.u8 3) ⟨[7, 7], some Err.invalidSize⟩
          = (zeroVals (.u8 3), ⟨[7, 7], some Err.invalidSize⟩)) :=
  ⟨⟨rfl, rfl⟩, c7_stickyError ⟨5, none, some Err.bufferTooShort⟩
    ⟨[7, 7], some Err.invalidSize⟩ (.u8 3) rfl rfl⟩

/-- C3 evidence: the encoder's generic `Int`/`Uint` accept size 3 (and 0)
without setting any error — `Encode` succeeds, counting and skipping
size-many bytes — while the decoder's `Int`/`Uint` do set `ErrInvalidSize`
on those sizes (when the buffer is long enough for the length check).  The
repository's own `TestEncodeInvalidSize` expects `ErrInvalidSize` from the
encoder as well. -/
theorem c3_invalidSize :
    encodeF (Encoder.uint 0 3) = some [0, 0, 0] ∧
    encodeF (Encoder.int 0 3) = some [0, 0, 0] ∧
    (Encoder.uint 0 3 countInit).err = none ∧
    (Encoder.int 0 3 countInit).err = none ∧
    (Encoder.uint 0 0 countInit).err = none ∧
    Decoder.uint 3 ⟨[1, 2, 3], none⟩ = (0, ⟨[1, 2, 3], some .invalidSize⟩) ∧
    Decoder.int 3 ⟨[1, 2, 3], none⟩ = (0, ⟨[1, 2, 3], some .invalidSize⟩) ∧
    Decoder.uint 0 ⟨[1, 2, 3], none⟩ = (0, ⟨[1, 2, 3], some .invalidSize⟩) ∧
    Decoder.int 0 ⟨[1, 2, 3], none⟩ = (0, ⟨[1, 2, 3], some .invalidSize⟩) := by
  decide

/-- C4 evidence: `DelString`/`DelBytes` with an empty delimiter succeed on
the encode side (the source has no empty-delimiter check there), returning
just the payload bytes, while the decode side fails with
`ErrEmptyDelimiter`; the repository's own `TestEncodeEmptyDelimiter`
expects the error from the encoder too. -/
theorem c4_emptyDelimiter :
    encodeF (Encoder.delString [102, 111, 111] []) = some [102, 111, 111] ∧
    (Encoder.delString [102, 111, 111] [] countInit).err = none ∧
    encodeF (Encoder.delBytes [102, 111, 111] []) = some [102, 111, 111] ∧
    (Encoder.delBytes [102, 111, 111] [] countInit).err = none ∧
    Decoder.delString [] true ⟨[102, 111, 111], none⟩
      = ([], ⟨[102, 111, 111], some .emptyDelimiter⟩) ∧
    Decoder.delBytes [] true ⟨[102, 111, 111], none⟩
      = ([], ⟨[102, 111, 111], some .emptyDelimiter⟩) := by
  decide

/-- C8: `Decode` runs the callback once on a fresh decoder over the input
and then checks, in order: a callback-returned error is returned as-is,
skipping both later checks (the final decoder state `d1` is arbitrary);
otherwise a set sticky error of the final decoder is returned, regardless
of whether input remains (no condition on `d1.buf`), so it precedes the
remaining-bytes check; otherwise `ErrRemainingBytes` is returned exactly
when input remains, else nil. -/
theorem c8_decodeChecks (bytes : List Nat) (fn : Decoder → Option Err × Decoder)
    (err : Err) (d1 : Decoder) :
    (fn ⟨bytes, none⟩ = (some err, d1) → decodeD bytes fn = some err) ∧
    (fn ⟨bytes, none⟩ = (none, d1) → d1.err = some err →
      decodeD bytes fn = some err) ∧
    (fn ⟨bytes, none⟩ = (none, d1) → d1.err = none → d1.buf ≠ [] →
      decodeD bytes fn = some .remainingBytes) ∧
    (fn ⟨bytes, none⟩ = (none, d1) → d1.err = none → d1.buf = [] →
      decodeD bytes fn = none) := by
  refine ⟨?_, ?_, ?_, ?_⟩
  · intro hcb
    unfold decodeD
    rw [show Decoder.mk bytes none = ⟨bytes, none⟩ from rfl, hcb]
  · intro hcb herr
    unfold decodeD
    rw [show Decoder.mk bytes none = ⟨bytes, none⟩ from rfl, hcb]
    simp [herr]
  · intro hcb herr hbuf
    unfold decodeD
    rw [show Decoder.mk bytes none = ⟨bytes, none⟩ from rfl, hcb]
    simp [herr, hbuf]
  · intro hcb herr hbuf
    unfold decodeD
    rw [show Decoder.mk bytes none = ⟨bytes, none⟩ from rfl, hcb]
    simp [herr, hbuf]

/-- Witness for C8 exercising all four branches: a callback error wins even
though the decoder also carries a sticky error and unread input; a nil
callback whose decoder state has a sticky error returns it even though the
two input bytes are unread (precedence over `ErrRemainingBytes`); a single
`Uint8` read of two bytes yields `ErrRemainingBytes`; two reads succeed. -/
theorem c8_decodeChecks_witness :
    decodeD [0x2A] constCallbackErr = some Err.callback ∧
    decodeD [0x2A, 0x54] badRead = some Err.bufferTooShort ∧
    decodeD [0x2A, 0x54] oneRead = some Err.remainingBytes ∧
    decodeD [0x2A, 0x54] twoReads = none :=
  ⟨(c8_decodeChecks [0x2A] constCallbackErr Err.callback
      ⟨[0x2A], some Err.bufferTooShort⟩).1 (by decide),
   (c8_decodeChecks [0x2A, 0x54] badRead Err.bufferTooShort
      ⟨[0x2A, 0x54], some Err.bufferTooShort⟩).2.1 (by decide) rfl,
   (c8_decodeChecks [0x2A, 0x54] oneRead Err.callback
      ⟨[0x54], none⟩).2.2.1 (by decide) rfl (by decide),
   (c8_decodeChecks [0x2A, 0x54] twoReads Err.callback
      ⟨[], none⟩).2.2.2 (by decide) rfl rfl⟩

/-- C10: whenever `binary.Uvarint` reports a negative byte count (64-bit
overflow of an overlong varint), `Decoder.VarUint` and `Decoder.VarInt` set
`ErrBufferTooShort` — the same error a truncated varint produces (third
conjunct) — and do not advance the cursor. -/
theorem c10_varintOverflow (buf : List Nat) (h : (uvarint buf).2 < 0) :
    Decoder.varUint ⟨buf, none⟩ = (0, ⟨buf, some .bufferTooShort⟩) ∧
    Decoder.varInt ⟨buf, none⟩ = (0, ⟨buf, some .bufferTooShort⟩) ∧
    Decoder.varUint ⟨[2 ^ 7], none⟩ = (0, ⟨[2 ^ 7], some .bufferTooShort⟩) := by
  have h1 : (uvarint buf).2 ≤ 0 := le_of_lt h
  have h2 : (varint buf).2 ≤ 0 := by
    simp only [varint]
    exact h1
  refine ⟨?_, ?_, by decide⟩
  · simp [Decoder.varUint, h1]
  · simp [Decoder.varInt, h2]

/-- Witness for C10 at a ten-byte varint encoding a value above `2^64`. -/
theorem c10_varintOverflow_witness :
    (uvarint overlongVarint).2 < 0 ∧
    (Decoder.varUint ⟨overlongVarint, none⟩
        = (0, ⟨overlongVarint, some .bufferTooShort⟩) ∧
     Decoder.varInt ⟨overlongVarint, none⟩
        = (0, ⟨overlongVarint, some .bufferTooShort⟩) ∧
     Decoder.varUint ⟨[2 ^ 7], none⟩ = (0, ⟨[2 ^ 7], some .bufferTooShort⟩)) :=
  ⟨by decide, c10_varintOverflow overlongVarint (by decide)⟩

theorem bitsLenGo_le {fuel n k : Nat} (h : n < 2 ^ k) (hk : k ≤ fuel) :
    bitsLenGo fuel n ≤ k := by
  induction fuel generalizing n k with
  | zero => simp [bitsLenGo]
  | succ fuel ih =>
    rw [bitsLenGo]
    split
    · omega
    · rename_i hne
      have hk1 : 1 ≤ k := by
        by_contra hc
        have hk0 : k = 0 := by omega
        subst hk0
        norm_num at h
        omega
      have hp : 2 ^ k = 2 * 2 ^ (k - 1) := by
        rw [← pow_succ']
        congr 1
        omega
      have hdiv : n / 2 < 2 ^ (k - 1) := by omega
      have := ih hdiv (by omega)
      omega

theorem lt_two_pow_bitsLenGo {fuel n : Nat} (h : n < 2 ^ fuel) :
    n < 2 ^ bitsLenGo fuel n := by
  induction fuel generalizing n with
  | zero => simpa [bitsLenGo] using h
  | succ fuel ih =>
    rw [bitsLenGo]
    split
    · rename_i h0
      subst h0
      norm_num
    · rename_i hne
      have hp : 2 ^ (fuel + 1) = 2 * 2 ^ fuel := by rw [← pow_succ']
      have hdiv : n / 2 < 2 ^ fuel := by omega
      have hih := ih hdiv
      have hp2 : 2 ^ (bitsLenGo fuel (n / 2) + 1)
          = 2 * 2 ^ bitsLenGo fuel (n / 2) := by rw [← pow_succ']
      omega

theorem bitsLen64_le_of_lt {n k : Nat} (h : n < 2 ^ k) (hk : k ≤ 64) :
    bitsLen64 n ≤ k := bitsLenGo_le h hk

theorem lt_two_pow_bitsLen64 {n : Nat} (h : n < 2 ^ 64) :
    n < 2 ^ bitsLen64 n := lt_two_pow_bitsLenGo h

theorem borrowModel_pooled (len : Nat) (h9 : 9 ≤ len) (h25 : len < 2 ^ 25) :
    borrowModel len = ⟨len, 2 ^ max 10 (bitsLen64 len), true⟩ := by
  have hlt64 : len < 2 ^ 64 := lt_trans h25 (by norm_num)
  have hlt := lt_two_pow_bitsLen64 hlt64
  have hb4 : 4 ≤ bitsLen64 len := by
    by_contra hc
    have hle : 2 ^ bitsLen64 len ≤ 2 ^ 3 :=
      Nat.pow_le_pow_right (by norm_num) (by omega)
    norm_num at hle
    omega
  have hb25 : bitsLen64 len ≤ 25 := bitsLen64_le_of_lt h25 (by norm_num)
  simp only [borrowModel]
  rcases lt_or_le ((bitsLen64 len : Int) - 10) 0 with hc | hc
  · rw [if_pos hc, if_neg (show ¬ (len < 9 ∨ (0:Int) = -1) by omega)]
    have hmax : (10:Nat) ⊔ bitsLen64 len = 10 := by omega
    rw [hmax]
    norm_num
  · rw [if_neg (show ¬ ((bitsLen64 len : Int) - 10 < 0) by omega),
      if_neg (show ¬ ((16:Int) ≤ (bitsLen64 len : Int) - 10) by omega),
      if_neg (show ¬ (len < 9 ∨ (bitsLen64 len : Int) - 10 = -1) by omega)]
    have hexp : ((bitsLen64 len : Int) - 10).toNat + 10 = 10 ⊔ bitsLen64 len := by
      omega
    rw [hexp]

theorem borrowModel_direct (len : Nat) (hlen : len < 2 ^ 63)
    (h : len < 9 ∨ 2 ^ 25 ≤ len) :
    borrowModel len = ⟨len, len, false⟩ := by
  rcases h with h | h
  · simp only [borrowModel]
    rcases lt_or_le ((bitsLen64 len : Int) - 10) 0 with hc | hc
    · rw [if_pos hc, if_pos (Or.inl h)]
    · rw [if_neg (show ¬ ((bitsLen64 len : Int) - 10 < 0) by omega)]
      by_cases h16 : (16:Int) ≤ (bitsLen64 len : Int) - 10
      · rw [if_pos h16, if_pos (Or.inl h)]
      · rw [if_neg h16, if_pos (Or.inl h)]
  · have hlt64 : len < 2 ^ 64 := lt_trans hlen (by norm_num)
    have hlt := lt_two_pow_bitsLen64 hlt64
    have hb : 26 ≤ bitsLen64 len := by
      by_contra hc
      have hle : 2 ^ bitsLen64 len ≤ 2 ^ 25 :=
        Nat.pow_le_pow_right (by norm_num) (by omega)
      omega
    simp only [borrowModel]
    rw [if_neg (show ¬ ((bitsLen64 len : Int) - 10 < 0) by omega),
      if_pos (show (16:Int) ≤ (bitsLen64 len : Int) - 10 by omega),
      if_pos (Or.inr rfl)]

theorem capClass_le (len i : Nat) (h10 : 10 ≤ i) (hi : i ≤ 64)
    (hlt : len < 2 ^ i) : 2 ^ (10 ⊔ bitsLen64 len) ≤ 2 ^ i := by
  have hb := bitsLen64_le_of_lt hlt hi
  exact Nat.pow_le_pow_right (by norm_num) (by omega)

/-- C5 counterexample: at the in-range request `len = 1024` the claim "the
capacity equals the smallest size class ≥ len" fails — `Borrow(1024)` takes
the 2048-byte class while the smallest class ≥ 1024 is 1024 itself. -/
theorem c5_counterexample :
    ¬ ((9 ≤ 1024 ∧ 1024 ≤ 2 ^ 25) →
        (borrowModel 1024).pooled = true ∧
        specSmallestClassGE 1024 = some (borrowModel 1024).cap) := by
  decide

/-- C5 amended: for `9 ≤ len < 2^25` (not `≤ 2^25`), `Borrow` returns a
pooled slice of length `len` with a non-zero Ref whose capacity is the
smallest size class STRICTLY greater than `len` (so a power-of-two request
takes the next class up); for `len < 9` or `len ≥ 2^25` — including 32 MiB
exactly — it returns a directly allocated slice with capacity exactly `len`
and a zero (no-op) Ref.  `len < 2^63` is the range of Go's non-negative
`int`. -/
theorem c5_amended (len : Nat) (hlen : len < 2 ^ 63) :
    ((9 ≤ len ∧ len < 2 ^ 25) →
      (borrowModel len).blen = len ∧ (borrowModel len).pooled = true ∧
      (borrowModel len).cap ∈ classList ∧ len < (borrowModel len).cap ∧
      (∀ c ∈ classList, len < c → (borrowModel len).cap ≤ c)) ∧
    ((len < 9 ∨ 2 ^ 25 ≤ len) → borrowModel len = ⟨len, len, false⟩) := by
  constructor
  · rintro ⟨h9, h25⟩
    have hlt64 : len < 2 ^ 64 := lt_trans h25 (by norm_num)
    have hb25 : bitsLen64 len ≤ 25 := bitsLen64_le_of_lt h25 (by norm_num)
    rw [borrowModel_pooled len h9 h25]
    refine ⟨rfl, rfl, ?_, ?_, ?_⟩
    · show 2 ^ (10 ⊔ bitsLen64 len) ∈ classList
      have hj1 : 10 ≤ 10 ⊔ bitsLen64 len := le_max_left _ _
      have hj2 : 10 ⊔ bitsLen64 len ≤ 25 := by omega
      set j := 10 ⊔ bitsLen64 len with hj
      clear_value j
      interval_cases j <;> decide
    · show len < 2 ^ (10 ⊔ bitsLen64 len)
      have h1 := lt_two_pow_bitsLen64 hlt64
      have h2 : 2 ^ bitsLen64 len ≤ 2 ^ (10 ⊔ bitsLen64 len) :=
        Nat.pow_le_pow_right (by norm_num) (le_max_right _ _)
      omega
    · intro c hc hlt
      show 2 ^ (10 ⊔ bitsLen64 len) ≤ c
      fin_cases hc
      · exact capClass_le len 10 (by norm_num) (by norm_num) (by omega)
      · exact capClass_le len 11 (by norm_num) (by norm_num) (by omega)
      · exact capClass_le len 12 (by norm_num) (by norm_num) (by omega)
      · exact capClass_le len 13 (by norm_num) (by norm_num) (by omega)
      · exact capClass_le len 14 (by norm_num) (by norm_num) (by omega)
      · exact capClass_le len 15 (by norm_num) (by norm_num) (by omega)
      · exact capClass_le len 16 (by norm_num) (by norm_num) (by omega)
      · exact capClass_le len 17 (by norm_num) (by norm_num) (by omega)
      · exact capClass_le len 18 (by norm_num) (by norm_num) (by omega)
      · exact capClass_le len 19 (by norm_num) (by norm_num) (by omega)
      · exact capClass_le len 20 (by norm_num) (by norm_num) (by omega)
      · exact capClass_le len 21 (by norm_num) (by norm_num) (by omega)
      · exact capClass_le len 22 (by norm_num) (by norm_num) (by omega)
      · exact capClass_le len 23 (by norm_num) (by norm_num) (by omega)
      · exact capClass_le len 24 (by norm_num) (by norm_num) (by omega)
      · exact capClass_le len 25 (by norm_num) (by norm_num) (by omega)
  · exact borrowModel_direct len hlen

/-- Witness for C5 (amended) at the pooled request 777 and the boundary
request `2^25`, which is allocated directly. -/
theorem c5_amended_witness :
    (777 < 2 ^ 63 ∧ 9 ≤ 777 ∧ 777 < 2 ^ 25 ∧ 2 ^ 25 < 2 ^ 63) ∧
    ((borrowModel 777).blen = 777 ∧ (borrowModel 777).pooled = true ∧
     (borrowModel 777).cap ∈ classList ∧ 777 < (borrowModel 777).cap ∧
     (∀ c ∈ classList, 777 < c → (borrowModel 777).cap ≤ c)) ∧
    borrowModel (2 ^ 25) = ⟨2 ^ 25, 2 ^ 25, false⟩ :=
  ⟨by decide, (c5_amended 777 (by decide)).1 (by decide),
    (c5_amended (2 ^ 25) (by decide)).2 (by decide)⟩

theorem nextGen_ne_zero (c : Nat) : (nextGen c).2 ≠ 0 := by
  simp only [nextGen]
  split_ifs <;> simp <;> omega

theorem nextGen_ne_next (c : Nat) : (nextGen (nextGen c).1).2 ≠ (nextGen c).2 := by
  simp only [nextGen]
  split_ifs <;> simp_all <;> omega

/-- C6: releasing the zero Ref is a no-op; a Ref from `Borrow` released once
succeeds (clearing the descriptor's generation); releasing it again panics
with the generation mismatch; after the descriptor is re-borrowed by a
second `Borrow`, releasing the stale first Ref panics (never an error
value), while the fresh Ref still releases fine. -/
theorem c6_refSafety (c d0 : Nat) :
    releaseRef .zero d0 = (.noop, d0) ∧
    releaseRef (borrowRef ⟨c, d0⟩).1 (borrowRef ⟨c, d0⟩).2.gen = (.ok, 0) ∧
    releaseRef (borrowRef ⟨c, d0⟩).1 0 = (.genMismatch, 0) ∧
    releaseRef (borrowRef ⟨c, d0⟩).1
        (borrowRef ⟨(borrowRef ⟨c, d0⟩).2.counter, 0⟩).2.gen
      = (.genMismatch, (borrowRef ⟨(borrowRef ⟨c, d0⟩).2.counter, 0⟩).2.gen) ∧
    releaseRef (borrowRef ⟨(borrowRef ⟨c, d0⟩).2.counter, 0⟩).1
        (borrowRef ⟨(borrowRef ⟨c, d0⟩).2.counter, 0⟩).2.gen
      = (.ok, 0) := by
  have hg1 := nextGen_ne_zero c
  have hg2 := nextGen_ne_next c
  refine ⟨rfl, ?_, ?_, ?_, ?_⟩
  · simp [borrowRef, releaseRef]
  · simp only [borrowRef, releaseRef]
    rw [if_neg (fun h => hg1 h.symm)]
  · simp only [borrowRef, releaseRef]
    rw [if_neg hg2]
  · simp [borrowRef, releaseRef]

theorem flat_len_const (alloc : Nat) :
    ∀ (cs : List (List Nat)), (∀ c ∈ cs, c.length = alloc) →
      cs.flatten.length = cs.length * alloc := by
  intro cs
  induction cs with
  | nil => simp
  | cons c tl ih =>
    intro h
    have hc := h c (List.mem_cons_self c tl)
    have htl := ih (fun x hx => h x (List.mem_cons_of_mem _ hx))
    simp only [List.flatten_cons, List.length_append, List.length_cons, htl, hc]
    ring

theorem getD_flat (alloc : Nat) :
    ∀ (cs : List (List Nat)) (idx : Nat), idx < cs.length →
      (∀ c ∈ cs, c.length = alloc) →
      cs.getD idx [] = (cs.flatten.drop (idx * alloc)).take alloc := by
  intro cs
  induction cs with
  | nil => intro idx h; simp at h
  | cons c tl ih =>
    intro idx hidx h
    have hc := h c (List.mem_cons_self c tl)
    match idx with
    | 0 =>
      simp only [List.getD_cons_zero, List.flatten_cons, Nat.zero_mul, List.drop_zero]
      rw [← hc, List.take_left]
    | idx + 1 =>
      have harith : (idx + 1) * alloc = c.length + idx * alloc := by rw [hc]; ring
      rw [List.getD_cons_succ, List.flatten_cons, harith, List.drop_append,
        ih idx (by simpa using Nat.lt_of_succ_lt_succ hidx)
          (fun x hx => h x (List.mem_cons_of_mem _ hx))]

theorem flat_set (alloc : Nat) :
    ∀ (cs : List (List Nat)) (idx : Nat) (ch1 : List Nat), idx < cs.length →
      (∀ c ∈ cs, c.length = alloc) →
      (cs.set idx ch1).flatten =
        cs.flatten.take (idx * alloc) ++ ch1 ++ cs.flatten.drop (idx * alloc + alloc) := by
  intro cs
  induction cs with
  | nil => intro idx ch1 h; simp at h
  | cons c tl ih =>
    intro idx ch1 hidx h
    have hc := h c (List.mem_cons_self c tl)
    match idx with
    | 0 =>
      simp only [List.set_cons_zero, List.flatten_cons, Nat.zero_mul, List.take_zero,
        List.drop_zero, List.nil_append, Nat.zero_add]
      rw [← hc, List.drop_left]
    | idx + 1 =>
      have harith : (idx + 1) * alloc = c.length + idx * alloc := by rw [hc]; ring
      rw [List.set_cons_succ, List.flatten_cons,
        ih idx ch1 (by simpa using Nat.lt_of_succ_lt_succ hidx)
          (fun x hx => h x (List.mem_cons_of_mem _ hx)),
        List.flatten_cons, harith, Nat.add_assoc c.length (idx * alloc) alloc,
        List.take_append, List.drop_append]
      simp [List.append_assoc]

theorem WF_set (alloc : Nat) (cs : List (List Nat)) (idx : Nat) (ch1 : List Nat)
    (h : ∀ c ∈ cs, c.length = alloc) (h1 : ch1.length = alloc) :
    ∀ c ∈ cs.set idx ch1, c.length = alloc := by
  intro c hc
  rcases List.mem_or_eq_of_mem_set hc with h2 | h2
  · exact h c h2
  · subst h2; exact h1

theorem take_chunk_take (f : List Nat) (A alloc off : Nat) (hoff : off ≤ alloc) :
    f.take A ++ ((f.drop A).take alloc).take off = f.take (A + off) := by
  rw [List.take_take, min_eq_left hoff, List.take_add]

theorem drop_chunk_append (f : List Nat) (A alloc q : Nat) (hq : q ≤ alloc) :
    ((f.drop A).take alloc).drop q ++ f.drop (A + alloc) = f.drop (A + q) := by
  rw [List.drop_take, List.drop_drop]
  have h2 : f.drop (A + alloc) = (f.drop (A + q)).drop (alloc - q) := by
    rw [List.drop_drop]; congr 1; omega
  rw [h2, List.take_append_drop]

theorem part_chunk (f : List Nat) (A alloc off plen : Nat) (h : off + plen ≤ alloc) :
    (((f.drop A).take alloc).drop off).take plen = (f.drop (A + off)).take plen := by
  rw [List.drop_take, List.drop_drop, List.take_take, min_eq_left (by omega)]

theorem replicate_glue (X D : List Nat) (a b c : Nat) (h : a + b = c) :
    (X ++ List.replicate a 0) ++ List.replicate b 0 ++ D =
      X ++ List.replicate c 0 ++ D := by
  subst h
  rw [List.replicate_add]
  simp [List.append_assoc]

theorem drop_append_ge (l1 l2 : List Nat) (n : Nat) (h : l1.length ≤ n) :
    (l1 ++ l2).drop n = l2.drop (n - l1.length) := by
  rw [List.drop_append_eq_append_drop, List.drop_eq_nil_of_le h, List.nil_append]

theorem zeroIter_spec :
    ∀ (fuel : Nat) (b : BufferM) (pos stop : Nat),
      BWF b → stop ≤ bcap b → pos ≤ stop → stop - pos ≤ fuel →
      (zeroIter fuel b pos stop).alloc = b.alloc ∧
      (zeroIter fuel b pos stop).length = b.length ∧
      (zeroIter fuel b pos stop).chunks.length = b.chunks.length ∧
      BWF (zeroIter fuel b pos stop) ∧
      bflat (zeroIter fuel b pos stop) =
        (bflat b).take pos ++ List.replicate (stop - pos) 0 ++ (bflat b).drop stop := by
  intro fuel
  induction fuel with
  | zero =>
    intro b pos stop hwf hcap hps hfu
    have hps2 : pos = stop := by omega
    subst hps2
    refine ⟨rfl, rfl, rfl, hwf, ?_⟩
    simp [zeroIter, List.take_append_drop]
  | succ fuel ih =>
    intro b pos stop hwf hcap hps hfu
    by_cases hlt : pos < stop
    case neg =>
      have hps2 : pos = stop := by omega
      subst hps2
      have hz : zeroIter (fuel + 1) b pos pos = b := by
        simp only [zeroIter]
        rw [if_neg hlt]
      rw [hz]
      refine ⟨rfl, rfl, rfl, hwf, ?_⟩
      simp [List.take_append_drop]
    case pos =>
      obtain ⟨halloc, hlens⟩ := hwf
      have hidxlt : pos / b.alloc < b.chunks.length :=
        (Nat.div_lt_iff_lt_mul halloc).mpr (lt_of_lt_of_le hlt hcap)
      have hchmem : b.chunks.getD (pos / b.alloc) [] ∈ b.chunks := by
        rw [List.getD_eq_getElem _ _ hidxlt]
        exact List.getElem_mem _
      have hchlen : (b.chunks.getD (pos / b.alloc) []).length = b.alloc := hlens _ hchmem
      have hofflt : pos % b.alloc < b.alloc := Nat.mod_lt _ halloc
      set plen := min ((b.chunks.getD (pos / b.alloc) []).length - pos % b.alloc) (stop - pos)
        with hplend
      have hplenmin : plen = min (b.alloc - pos % b.alloc) (stop - pos) := by
        rw [hplend, hchlen]
      have hplen1 : 1 ≤ plen := by omega
      have hplenle : pos % b.alloc + plen ≤ b.alloc := by omega
      have hplenstop : pos + plen ≤ stop := by omega
      set ch1 := (b.chunks.getD (pos / b.alloc) []).take (pos % b.alloc) ++
          List.replicate plen 0 ++
          (b.chunks.getD (pos / b.alloc) []).drop (pos % b.alloc + plen) with hch1d
      have hch1len : ch1.length = b.alloc := by
        rw [hch1d, List.length_append, List.length_append, List.length_take,
          List.length_replicate, List.length_drop, hchlen]
        omega
      set b1 : BufferM := { b with chunks := b.chunks.set (pos / b.alloc) ch1 } with hb1d
      have hb1alloc : b1.alloc = b.alloc := rfl
      have hb1len : b1.length = b.length := rfl
      have hb1cl : b1.chunks.length = b.chunks.length := by
        rw [hb1d]
        simp
      have hb1wf : BWF b1 := ⟨halloc, fun c hc => WF_set b.alloc b.chunks _ ch1 hlens hch1len c hc⟩
      have hb1cap : bcap b1 = bcap b := by
        rw [bcap, bcap, hb1alloc, hb1cl]
      have hflen : (bflat b).length = bcap b := flat_len_const b.alloc b.chunks hlens
      have hchsl := getD_flat b.alloc b.chunks (pos / b.alloc) hidxlt hlens
      have hAoff : pos / b.alloc * b.alloc + pos % b.alloc = pos := by
        have h9 := Nat.div_add_mod pos b.alloc
        rw [Nat.mul_comm] at h9
        exact h9
      have hb1flat : bflat b1 =
          (bflat b).take pos ++ List.replicate plen 0 ++ (bflat b).drop (pos + plen) := by
        show (b.chunks.set (pos / b.alloc) ch1).flatten =
          b.chunks.flatten.take pos ++ List.replicate plen 0 ++
            b.chunks.flatten.drop (pos + plen)
        rw [flat_set b.alloc b.chunks (pos / b.alloc) ch1 hidxlt hlens, hch1d, hchsl]
        simp only [List.append_assoc]
        rw [← List.append_assoc (b.chunks.flatten.take (pos / b.alloc * b.alloc))]
        rw [take_chunk_take b.chunks.flatten (pos / b.alloc * b.alloc) b.alloc (pos % b.alloc)
          (le_of_lt hofflt)]
        rw [drop_chunk_append b.chunks.flatten (pos / b.alloc * b.alloc) b.alloc
          (pos % b.alloc + plen) hplenle]
        rw [hAoff]
        rw [show pos / b.alloc * b.alloc + (pos % b.alloc + plen) = pos + plen from by
          rw [← Nat.add_assoc, hAoff]]
      have hstep : zeroIter (fuel + 1) b pos stop = zeroIter fuel b1 (pos + plen) stop := by
        simp only [zeroIter]
        rw [if_pos hlt]
      obtain ⟨ha, hl, hcl, hwf2, hfl⟩ :=
        ih b1 (pos + plen) stop hb1wf (by rw [hb1cap]; exact hcap) (by omega) (by omega)
      have hlen5 : ((bflat b).take pos ++ List.replicate plen 0).length = pos + plen := by
        simp [List.length_take]
        omega
      have hdrop5 : ((bflat b).take pos ++ List.replicate plen 0 ++
          (bflat b).drop (pos + plen)).drop stop = (bflat b).drop stop := by
        rw [drop_append_ge ((bflat b).take pos ++ List.replicate plen 0) _ stop
          (by rw [hlen5]; omega)]
        rw [hlen5, List.drop_drop]
        congr 1
        omega
      refine ⟨?_, ?_, ?_, ?_, ?_⟩
      · rw [hstep, ha, hb1alloc]
      · rw [hstep, hl, hb1len]
      · rw [hstep, hcl, hb1cl]
      · rw [hstep]; exact hwf2
      · rw [hstep, hfl, hb1flat, List.take_left' hlen5, hdrop5]
        exact replicate_glue ((bflat b).take pos) ((bflat b).drop stop) plen
          (stop - (pos + plen)) (stop - pos) (by omega)

theorem copyIter_spec :
    ∀ (fuel : Nat) (b : BufferM) (data : List Nat) (start pos : Nat),
      BWF b → start + data.length ≤ bcap b → start ≤ pos → pos ≤ start + data.length →
      start + data.length - pos ≤ fuel →
      (copyIter fuel data start b pos (start + data.length)).alloc = b.alloc ∧
      (copyIter fuel data start b pos (start + data.length)).length = b.length ∧
      (copyIter fuel data start b pos (start + data.length)).chunks.length = b.chunks.length ∧
      BWF (copyIter fuel data start b pos (start + data.length)) ∧
      bflat (copyIter fuel data start b pos (start + data.length)) =
        (bflat b).take pos ++ data.drop (pos - start) ++
          (bflat b).drop (start + data.length) := by
  intro fuel
  induction fuel with
  | zero =>
    intro b data start pos hwf hcap hsp hps hfu
    have hps2 : pos = start + data.length := by omega
    refine ⟨rfl, rfl, rfl, hwf, ?_⟩
    show bflat b = _
    rw [hps2, Nat.add_sub_cancel_left, List.drop_length, List.append_nil,
      List.take_append_drop]
  | succ fuel ih =>
    intro b data start pos hwf hcap hsp hps hfu
    by_cases hlt : pos < start + data.length
    case neg =>
      have hps2 : pos = start + data.length := by omega
      have hz : copyIter (fuel + 1) data start b pos (start + data.length) = b := by
        simp only [copyIter]
        rw [if_neg hlt]
      rw [hz]
      refine ⟨rfl, rfl, rfl, hwf, ?_⟩
      rw [hps2, Nat.add_sub_cancel_left, List.drop_length, List.append_nil,
        List.take_append_drop]
    case pos =>
      obtain ⟨halloc, hlens⟩ := hwf
      have hidxlt : pos / b.alloc < b.chunks.length :=
        (Nat.div_lt_iff_lt_mul halloc).mpr (lt_of_lt_of_le hlt hcap)
      have hchmem : b.chunks.getD (pos / b.alloc) [] ∈ b.chunks := by
        rw [List.getD_eq_getElem _ _ hidxlt]
        exact List.getElem_mem _
      have hchlen : (b.chunks.getD (pos / b.alloc) []).length = b.alloc := hlens _ hchmem
      have hofflt : pos % b.alloc < b.alloc := Nat.mod_lt _ halloc
      set plen := min ((b.chunks.getD (pos / b.alloc) []).length - pos % b.alloc)
        (start + data.length - pos) with hplend
      have hplenmin : plen = min (b.alloc - pos % b.alloc) (start + data.length - pos) := by
        rw [hplend, hchlen]
      have hplen1 : 1 ≤ plen := by omega
      have hplenle : pos % b.alloc + plen ≤ b.alloc := by omega
      have hplenstop : pos + plen ≤ start + data.length := by omega
      set mm := min plen (data.length - (pos - start)) with hmmd
      have hmm : mm = plen := by omega
      set ch1 := (b.chunks.getD (pos / b.alloc) []).take (pos % b.alloc) ++
          (data.drop (pos - start)).take mm ++
          (b.chunks.getD (pos / b.alloc) []).drop (pos % b.alloc + mm) with hch1d
      have hch1len : ch1.length = b.alloc := by
        rw [hch1d, List.length_append, List.length_append, List.length_take,
          List.length_take, List.length_drop, List.length_drop, hchlen]
        omega
      set b1 : BufferM := { b with chunks := b.chunks.set (pos / b.alloc) ch1 } with hb1d
      have hb1alloc : b1.alloc = b.alloc := rfl
      have hb1len : b1.length = b.length := rfl
      have hb1cl : b1.chunks.length = b.chunks.length := by
        rw [hb1d]
        simp
      have hb1wf : BWF b1 := ⟨halloc, fun c hc => WF_set b.alloc b.chunks _ ch1 hlens hch1len c hc⟩
      have hb1cap : bcap b1 = bcap b := by
        rw [bcap, bcap, hb1alloc, hb1cl]
      have hflen : (bflat b).length = bcap b := flat_len_const b.alloc b.chunks hlens
      have hchsl := getD_flat b.alloc b.chunks (pos / b.alloc) hidxlt hlens
      have hAoff : pos / b.alloc * b.alloc + pos % b.alloc = pos := by
        have h9 := Nat.div_add_mod pos b.alloc
        rw [Nat.mul_comm] at h9
        exact h9
      have hb1flat : bflat b1 =
          (bflat b).take pos ++ (data.drop (pos - start)).take plen ++
            (bflat b).drop (pos + plen) := by
        show (b.chunks.set (pos / b.alloc) ch1).flatten = _
        rw [flat_set b.alloc b.chunks (pos / b.alloc) ch1 hidxlt hlens, hch1d, hmm, hchsl]
        simp only [List.append_assoc]
        rw [← List.append_assoc (b.chunks.flatten.take (pos / b.alloc * b.alloc))]
        rw [take_chunk_take b.chunks.flatten (pos / b.alloc * b.alloc) b.alloc (pos % b.alloc)
          (le_of_lt hofflt)]
        rw [drop_chunk_append b.chunks.flatten (pos / b.alloc * b.alloc) b.alloc
          (pos % b.alloc + plen) hplenle]
        rw [hAoff]
        rw [show pos / b.alloc * b.alloc + (pos % b.alloc + plen) = pos + plen from by
          rw [← Nat.add_assoc, hAoff]]
        simp [bflat, List.append_assoc]
      have hstep : copyIter (fuel + 1) data start b pos (start + data.length) =
          copyIter fuel data start b1 (pos + plen) (start + data.length) := by
        simp only [copyIter]
        rw [if_pos hlt]
      obtain ⟨ha, hl, hcl, hwf2, hfl⟩ :=
        ih b1 data start (pos + plen) hb1wf (by rw [hb1cap]; exact hcap) (by omega) (by omega)
        (by omega)
      have hp1len : ((data.drop (pos - start)).take plen).length = plen := by
        rw [List.length_take, List.length_drop]
        omega
      have hlen5 : ((bflat b).take pos ++ (data.drop (pos - start)).take plen).length =
          pos + plen := by
        rw [List.length_append, List.length_take, hp1len]
        omega
      have hdrop5 : ((bflat b).take pos ++ (data.drop (pos - start)).take plen ++
          (bflat b).drop (pos + plen)).drop (start + data.length) =
          (bflat b).drop (start + data.length) := by
        rw [drop_append_ge ((bflat b).take pos ++ (data.drop (pos - start)).take plen) _
          (start + data.length) (by rw [hlen5]; omega)]
        rw [hlen5, List.drop_drop]
        congr 1
        omega
      have hglue : (data.drop (pos - start)).take plen ++ data.drop ((pos - start) + plen) =
          data.drop (pos - start) := by
        have h8 := List.take_append_drop plen (data.drop (pos - start))
        rw [List.drop_drop] at h8
        exact h8
      refine ⟨?_, ?_, ?_, ?_, ?_⟩
      · rw [hstep, ha, hb1alloc]
      · rw [hstep, hl, hb1len]
      · rw [hstep, hcl, hb1cl]
      · rw [hstep]; exact hwf2
      · rw [hstep, hfl, hb1flat, List.take_left' hlen5, hdrop5]
        rw [show pos + plen - start = (pos - start) + plen from by omega]
        rw [List.append_assoc ((bflat b).take pos) ((data.drop (pos - start)).take plen)]
        rw [hglue]

theorem readIter_spec :
    ∀ (fuel : Nat) (b : BufferM) (out : List Nat) (start pos : Nat),
      BWF b → start + out.length ≤ bcap b → start ≤ pos → pos ≤ start + out.length →
      start + out.length - pos ≤ fuel →
      readIter fuel b out start pos (start + out.length) =
        out.take (pos - start) ++ ((bflat b).drop pos).take (start + out.length - pos) := by
  intro fuel
  induction fuel with
  | zero =>
    intro b out start pos hwf hcap hsp hps hfu
    have hps2 : pos = start + out.length := by omega
    show out = _
    rw [hps2, Nat.add_sub_cancel_left, Nat.sub_self, List.take_zero, List.append_nil,
      List.take_length]
  | succ fuel ih =>
    intro b out start pos hwf hcap hsp hps hfu
    by_cases hlt : pos < start + out.length
    case neg =>
      have hps2 : pos = start + out.length := by omega
      have hz : readIter (fuel + 1) b out start pos (start + out.length) = out := by
        simp only [readIter]
        rw [if_neg hlt]
      rw [hz, hps2, Nat.add_sub_cancel_left, Nat.sub_self, List.take_zero, List.append_nil,
        List.take_length]
    case pos =>
      obtain ⟨halloc, hlens⟩ := hwf
      have hidxlt : pos / b.alloc < b.chunks.length :=
        (Nat.div_lt_iff_lt_mul halloc).mpr (lt_of_lt_of_le hlt hcap)
      have hchmem : b.chunks.getD (pos / b.alloc) [] ∈ b.chunks := by
        rw [List.getD_eq_getElem _ _ hidxlt]
        exact List.getElem_mem _
      have hchlen : (b.chunks.getD (pos / b.alloc) []).length = b.alloc := hlens _ hchmem
      have hofflt : pos % b.alloc < b.alloc := Nat.mod_lt _ halloc
      set plen := min ((b.chunks.getD (pos / b.alloc) []).length - pos % b.alloc)
        (start + out.length - pos) with hplend
      have hplenmin : plen = min (b.alloc - pos % b.alloc) (start + out.length - pos) := by
        rw [hplend, hchlen]
      have hplen1 : 1 ≤ plen := by omega
      have hplenle : pos % b.alloc + plen ≤ b.alloc := by omega
      have hplenstop : pos + plen ≤ start + out.length := by omega
      set part := ((b.chunks.getD (pos / b.alloc) []).drop (pos % b.alloc)).take plen
        with hpartd
      have hpartlen : part.length = plen := by
        rw [hpartd, List.length_take, List.length_drop, hchlen]
        omega
      have hflen : (bflat b).length = bcap b := flat_len_const b.alloc b.chunks hlens
      have hchsl := getD_flat b.alloc b.chunks (pos / b.alloc) hidxlt hlens
      have hAoff : pos / b.alloc * b.alloc + pos % b.alloc = pos := by
        have h9 := Nat.div_add_mod pos b.alloc
        rw [Nat.mul_comm] at h9
        exact h9
      have hpart : part = (b.chunks.flatten.drop pos).take plen := by
        rw [hpartd, hchsl, part_chunk b.chunks.flatten (pos / b.alloc * b.alloc) b.alloc
          (pos % b.alloc) plen hplenle, hAoff]
      set mm := min (out.length - (pos - start)) plen with hmmd
      have hmm : mm = plen := by omega
      have hparttake : part.take mm = part := by
        rw [hmm, hpartd, List.take_take, Nat.min_self]
      set out1 := out.take (pos - start) ++ part.take mm ++ out.drop ((pos - start) + mm)
        with hout1d
      have hout1eq : out1 = out.take (pos - start) ++ part ++ out.drop ((pos - start) + plen) := by
        rw [hout1d, hparttake, hmm]
      have hout1len : out1.length = out.length := by
        rw [hout1eq, List.length_append, List.length_append, List.length_take,
          List.length_drop, hpartlen]
        omega
      have hstep : readIter (fuel + 1) b out start pos (start + out.length) =
          readIter fuel b out1 start (pos + plen) (start + out.length) := by
        simp only [readIter]
        rw [if_pos hlt]
      have hIH := ih b out1 start (pos + plen) ⟨halloc, hlens⟩
        (by rw [hout1len]; exact hcap) (by omega) (by rw [hout1len]; omega)
        (by rw [hout1len]; omega)
      rw [hout1len] at hIH
      rw [hstep, hIH, hout1eq]
      have hlen5 : (out.take (pos - start) ++ part).length = pos - start + plen := by
        rw [List.length_append, List.length_take, hpartlen]
        omega
      rw [show pos + plen - start = (pos - start) + plen from by omega]
      rw [List.take_left' hlen5]
      rw [show start + out.length - pos = plen + (start + out.length - (pos + plen)) from by
        omega]
      rw [List.take_add, List.drop_drop, hpart]
      simp [bflat, List.append_assoc]

/-- C9: writing a payload at offset 20 into a freshly created empty Buffer
(via `WriteAt`) and then reading bytes `[0, 20)` yields all zero bytes: the
gap between the old length (0) and the write offset is explicitly
zero-filled by `Buffer.write`, even though the backing chunks arrive from
the pool with arbitrary unzeroed contents (the `junk` oracle) and the
reader's destination buffer holds arbitrary prior bytes (`scratch`). -/
theorem c9_zeroFill (alloc : Nat) (halloc : 1 ≤ alloc) (junk : Nat → List Nat)
    (hjunk : ∀ i, (junk i).length = alloc) (payload scratch : List Nat)
    (hscr : scratch.length = 20) :
    readB (writeB junk (newBuffer alloc) 20 payload) 0 scratch =
      (List.replicate 20 0, 20, none) := by
  have h0 : writeB junk (newBuffer alloc) 20 payload =
      copyIter payload.length payload 20
        (zeroIter 20 (growB junk (newBuffer alloc) (20 + payload.length)) 0 20)
        20 (20 + payload.length) := rfl
  have h1 : growB junk (newBuffer alloc) (20 + payload.length) =
      BufferM.mk alloc (20 + payload.length)
        ((List.range ((20 + payload.length) / alloc + 1)).map junk) := by
    simp only [growB, newBuffer]
    rw [if_neg (by omega)]
    simp
  rw [h0, h1]
  set X := BufferM.mk alloc (20 + payload.length)
    ((List.range ((20 + payload.length) / alloc + 1)).map junk) with hXd
  have hXwf : BWF X := by
    refine ⟨halloc, ?_⟩
    intro c hc
    rw [hXd] at hc
    simp only [List.mem_map] at hc
    obtain ⟨i, _, hi⟩ := hc
    rw [← hi]
    exact hjunk i
  have hXcap : 21 + payload.length ≤ bcap X := by
    have hdm := Nat.div_add_mod (20 + payload.length) alloc
    rw [Nat.mul_comm] at hdm
    have hml : (20 + payload.length) % alloc < alloc := Nat.mod_lt _ halloc
    have hb : bcap X = (20 + payload.length) / alloc * alloc + alloc := by
      rw [hXd, bcap]
      simp [Nat.add_mul]
    omega
  obtain ⟨hza, hzl, hzcl, hzwf, hzflat⟩ :=
    zeroIter_spec 20 X 0 20 hXwf (by omega) (by omega) (by omega)
  simp only [List.take_zero, List.nil_append, Nat.sub_zero] at hzflat
  set Z := zeroIter 20 X 0 20 with hZd
  have hZcap : bcap Z = bcap X := by rw [bcap, bcap, hza, hzcl]
  obtain ⟨hca, hcl2, hccl, hcwf, hcflat⟩ :=
    copyIter_spec payload.length Z payload 20 20 hzwf (by omega) (by omega) (by omega)
      (by omega)
  simp only [Nat.sub_self, List.drop_zero] at hcflat
  set C := copyIter payload.length payload 20 Z 20 (20 + payload.length) with hCd
  have hClen : C.length = 20 + payload.length := by rw [hcl2, hzl, hXd]
  have hCcap : bcap C = bcap X := by
    rw [bcap, bcap, hca, hccl]
    exact hZcap
  have hread : readB C 0 scratch = (readIter 20 C scratch 0 0 20, 20, none) := by
    simp only [readB]
    rw [if_neg (show ¬(C.length ≤ 0) from by omega),
      if_neg (show ¬(C.length < 0 + scratch.length) from by omega), hscr]
  have hri := readIter_spec 20 C scratch 0 0 hcwf (by omega) (by omega) (by omega) (by omega)
  simp only [Nat.zero_add, Nat.sub_zero, Nat.sub_self, List.take_zero, List.nil_append,
    List.drop_zero] at hri
  rw [hscr] at hri
  have hfinal : (bflat C).take 20 = List.replicate 20 0 := by
    rw [hcflat, hzflat]
    have hR : (List.replicate 20 (0 : Nat)).length = 20 := by simp
    rw [List.take_left' hR, List.append_assoc, List.take_left' hR]
  rw [hread, hri, hfinal]

theorem c9_zeroFill_witness :
    readB (writeB (fun k => [7, 7, 7]) (newBuffer 3) 20 [1, 2]) 0 (List.replicate 20 9) =
      (List.replicate 20 0, 20, none) :=
  c9_zeroFill 3 (by decide) (fun k => [7, 7, 7]) (fun k => rfl) [1, 2]
    (List.replicate 20 9) (by decide)

end Fpack
